import Mathlib

/-
Verification development for the provider-protocol adapter of the
oai-compatible-copilot repository.

The definitions below are a shallow embedding of the TypeScript sources:
  - src/utils.ts          (tryParseJSONObject, executeWithRetry, convertToolsToOpenAI)
  - src/commonApi.ts      (CommonApi: tool-call assembler and thinking buffer)
  - src/openai/openaiApi.ts          (OpenaiApi: SSE chat-completions stream parser,
                                      prepareRequestBody)
  - src/openai/openaiResponsesApi.ts (OpenaiResponsesApi: convertMessages,
                                      bufferReasoningChunk)
  - src/anthropic/anthropicApi.ts    (AnthropicApi.convertMessages)

Modelling conventions:
  - JavaScript strings are Lean String values; .slice/.startsWith/.trim map to
    String.drop/String.startsWith/String.trim.
  - JavaScript numbers are modelled as Rat.
  - undefined/null option fields are Option; a field that distinguishes
    "absent" from "explicitly null" is Option (Option _).
  - Math.random()/Date.now() based id generation is modelled by a fresh-name
    counter threaded through the state (ids are opaque to all the properties
    proved here).
  - progress.report emissions are collected into an ordered list of Part
    values; thrown exceptions are surfaced as Option error components or
    Except results.
-/

set_option maxRecDepth 8192

namespace OaiAdapter

/-! ## JSON values and a model of JSON.parse (used by tryParseJSONObject) -/

inductive Json where
  | null
  | bool (b : Bool)
  | num (q : Rat)
  | str (s : String)
  | arr (elems : List Json)
  | obj (fields : List (String × Json))

/-- Whitespace accepted between JSON tokens (as in the JSON grammar). -/
def isJsonWs (c : Char) : Bool :=
  c == ' ' || c == '\t' || c == '\n' || c == '\r'

def skipWs : List Char → List Char
  | [] => []
  | c :: rest => if isJsonWs c then skipWs rest else c :: rest

def digitsToNat (ds : List Char) : Nat :=
  ds.foldl (fun n c => n * 10 + (c.toNat - 48)) 0

def hexDigitVal (c : Char) : Option Nat :=
  if c.isDigit then some (c.toNat - 48)
  else if 'a' ≤ c ∧ c ≤ 'f' then some (c.toNat - 87)
  else if 'A' ≤ c ∧ c ≤ 'F' then some (c.toNat - 55)
  else none

/-- Parse the body of a JSON string literal after the opening quote.
Returns the decoded characters and the input following the closing quote. -/
def parseStringBody : List Char → Option (List Char × List Char)
  | [] => none
  | c :: rest =>
    if c == '"' then some ([], rest)
    else if c == '\\' then
      match rest with
      | [] => none
      | e :: rest2 =>
        let simpleEsc : Option Char :=
          if e == '"' then some '"'
          else if e == '\\' then some '\\'
          else if e == '/' then some '/'
          else if e == 'b' then some (Char.ofNat 8)
          else if e == 'f' then some (Char.ofNat 12)
          else if e == 'n' then some '\n'
          else if e == 'r' then some '\r'
          else if e == 't' then some '\t'
          else none
        match simpleEsc with
        | some d =>
          match parseStringBody rest2 with
          | some (cs, rem) => some (d :: cs, rem)
          | none => none
        | none =>
          if e == 'u' then
            match rest2 with
            | h1 :: h2 :: h3 :: h4 :: rest3 =>
              match hexDigitVal h1, hexDigitVal h2, hexDigitVal h3, hexDigitVal h4 with
              | some v1, some v2, some v3, some v4 =>
                let code := ((v1 * 16 + v2) * 16 + v3) * 16 + v4
                match parseStringBody rest3 with
                | some (cs, rem) => some (Char.ofNat code :: cs, rem)
                | none => none
              | _, _, _, _ => none
            | _ => none
          else none
    else if c.toNat < 32 then none
    else
      match parseStringBody rest with
      | some (cs, rem) => some (c :: cs, rem)
      | none => none

/-- Parse a JSON number (sign, integer part, optional fraction and exponent). -/
def parseNumber (cs : List Char) : Option (Rat × List Char) :=
  let (neg, cs1) :=
    match cs with
    | '-' :: rest => (true, rest)
    | _ => (false, cs)
  let intPart : Option (Nat × List Char) :=
    match cs1 with
    | '0' :: rest => some (0, rest)
    | c :: _ =>
      if c.isDigit then
        let (ds, rest) := cs1.span Char.isDigit
        some (digitsToNat ds, rest)
      else none
    | [] => none
  match intPart with
  | none => none
  | some (ival, cs2) =>
    let fracPart : Option (Rat × List Char) :=
      match cs2 with
      | '.' :: rest =>
        let (ds, rest2) := rest.span Char.isDigit
        if ds.isEmpty then none
        else some ((ival : Rat) + (digitsToNat ds : Rat) / ((10 : Rat) ^ ds.length), rest2)
      | _ => some ((ival : Rat), cs2)
    match fracPart with
    | none => none
    | some (fval, cs3) =>
      let expPart : Option (Rat × List Char) :=
        match cs3 with
        | e :: rest =>
          if e == 'e' || e == 'E' then
            let (expNeg, rest2) :=
              match rest with
              | '+' :: r => (false, r)
              | '-' :: r => (true, r)
              | _ => (false, rest)
            let (ds, rest3) := rest2.span Char.isDigit
            if ds.isEmpty then none
            else
              let k := digitsToNat ds
              if expNeg then some (fval / ((10 : Rat) ^ k), rest3)
              else some (fval * ((10 : Rat) ^ k), rest3)
          else some (fval, cs3)
        | [] => some (fval, cs3)
      match expPart with
      | none => none
      | some (v, cs4) => some ((if neg then -v else v), cs4)

/-- Check whether the input starts with the given literal and return the rest. -/
def stripLit (lit : List Char) (cs : List Char) : Option (List Char) :=
  match lit, cs with
  | [], rest => some rest
  | l :: ls, c :: rest => if l == c then stripLit ls rest else none
  | _ :: _, [] => none

mutual

/-- Recursive-descent JSON value parsing; the fuel strictly bounds the depth of
nested parsing calls (each level consumes at least one input character, so
fuel = input length + 2 never runs out on real input). -/
def parseValue : Nat → List Char → Option (Json × List Char)
  | 0, _ => none
  | fuel + 1, cs =>
    match skipWs cs with
    | [] => none
    | c :: rest =>
      if c == '"' then
        match parseStringBody rest with
        | some (content, rem) => some (Json.str (String.mk content), rem)
        | none => none
      else if c == Char.ofNat 123 then
        match skipWs rest with
        | d :: rest2 =>
          if d == Char.ofNat 125 then some (Json.obj [], rest2)
          else
            match parseMembers fuel (d :: rest2) with
            | some (fields, rem) => some (Json.obj fields, rem)
            | none => none
        | [] => none
      else if c == '[' then
        match skipWs rest with
        | d :: rest2 =>
          if d == ']' then some (Json.arr [], rest2)
          else
            match parseElems fuel (d :: rest2) with
            | some (elems, rem) => some (Json.arr elems, rem)
            | none => none
        | [] => none
      else if c == 't' then
        match stripLit ['r', 'u', 'e'] rest with
        | some rem => some (Json.bool true, rem)
        | none => none
      else if c == 'f' then
        match stripLit ['a', 'l', 's', 'e'] rest with
        | some rem => some (Json.bool false, rem)
        | none => none
      else if c == 'n' then
        match stripLit ['u', 'l', 'l'] rest with
        | some rem => some (Json.null, rem)
        | none => none
      else if c == '-' || c.isDigit then
        match parseNumber (c :: rest) with
        | some (q, rem) => some (Json.num q, rem)
        | none => none
      else none

/-- Parse one or more comma-separated object members up to the closing brace. -/
def parseMembers : Nat → List Char → Option (List (String × Json) × List Char)
  | 0, _ => none
  | fuel + 1, cs =>
    match skipWs cs with
    | c :: rest =>
      if c == '"' then
        match parseStringBody rest with
        | some (keyChars, rem) =>
          match skipWs rem with
          | ':' :: rem2 =>
            match parseValue fuel rem2 with
            | some (v, rem3) =>
              match skipWs rem3 with
              | ',' :: rem4 =>
                match parseMembers fuel rem4 with
                | some (fields, rem5) => some ((String.mk keyChars, v) :: fields, rem5)
                | none => none
              | d :: rem4 =>
                if d == Char.ofNat 125 then some ([(String.mk keyChars, v)], rem4)
                else none
              | [] => none
            | none => none
          | _ => none
        | none => none
      else none
    | [] => none

/-- Parse one or more comma-separated array elements up to the closing bracket. -/
def parseElems : Nat → List Char → Option (List Json × List Char)
  | 0, _ => none
  | fuel + 1, cs =>
    match parseValue fuel cs with
    | some (v, rem) =>
      match skipWs rem with
      | ',' :: rem2 =>
        match parseElems fuel rem2 with
        | some (elems, rem3) => some (v :: elems, rem3)
        | none => none
      | ']' :: rem2 => some ([v], rem2)
      | _ => none
    | none => none

end

/-- Model of JavaScript JSON.parse: parse a complete JSON document, rejecting
trailing garbage. -/
def jsonParse (s : String) : Option Json :=
  let cs := s.toList
  match parseValue (cs.length + 2) cs with
  | some (v, rest) => if skipWs rest = [] then some v else none
  | none => none

/-- Embedding of utils.ts tryParseJSONObject: requires the text to contain an
opening brace, parse as JSON, and denote an object (not an array, primitive or
null); returns the object fields on success. -/
def tryParseJSONObject (text : String) : Option (List (String × Json)) :=
  if text.toList.contains (Char.ofNat 123) = false then none
  else
    match jsonParse text with
    | some (Json.obj fields) => some fields
    | _ => none

/-! ## Generic helpers: association maps (JS Map/object) and string search -/

/-- Lookup in an insertion-ordered association list (JS Map.get / object access). -/
def amGet [BEq κ] (m : List (κ × ν)) (k : κ) : Option ν :=
  (m.find? (fun e => e.1 == k)).map (fun e => e.2)

/-- Insert or update in an insertion-ordered association list (JS Map.set /
object assignment): an existing key keeps its position, a new key is appended. -/
def amSet [BEq κ] (m : List (κ × ν)) (k : κ) (v : ν) : List (κ × ν) :=
  if (m.find? (fun e => e.1 == k)).isSome then
    m.map (fun e => if e.1 == k then (k, v) else e)
  else m ++ [(k, v)]

/-- Remove a key (JS Map.delete / delete operator). -/
def amDel [BEq κ] (m : List (κ × ν)) (k : κ) : List (κ × ν) :=
  m.filter (fun e => !(e.1 == k))

/-- Add an element to a set kept as a duplicate-free list (JS Set.add). -/
def setAdd [BEq α] (s : List α) (x : α) : List α :=
  if s.contains x then s else s ++ [x]

/-- Index of the first occurrence of a pattern in a character list
(JS String.indexOf). -/
def listIndexOf (pat : List Char) : List Char → Option Nat
  | [] => if pat.isEmpty then some 0 else none
  | c :: rest =>
    if pat.isPrefixOf (c :: rest) then some 0
    else (listIndexOf pat rest).map (fun n => n + 1)

/-- JS String.includes. -/
def strContains (s pat : String) : Bool :=
  (listIndexOf pat.toList s.toList).isSome

/-! ## Canonical response events and the shared stream-parse state

Embedding of the CommonApi base class (src/commonApi.ts): the per-stream
tool-call assembler and thinking buffer, together with the OpenaiApi
chat-completions field-extraction state (src/openai/openaiApi.ts). -/

/-- Whitespace as trimmed by JS String.trim. -/
def isWsChar (c : Char) : Bool :=
  c == ' ' || c == '\t' || c == '\n' || c == '\r' || c == Char.ofNat 11 || c == Char.ofNat 12

/-- JS String.trim, evaluated over the character list. -/
def jsTrim (s : String) : String :=
  String.mk (((s.toList.dropWhile isWsChar).reverse.dropWhile isWsChar).reverse)

/-- A part reported to the host via progress.report, in emission order. -/
inductive Part where
  | text (s : String)
  | thinking (s : String) (id : Option String)
  | toolCall (id : String) (name : String) (args : List (String × Json))

/-- Buffer for assembling a streamed tool call (CommonApi._toolCallBuffers entry). -/
structure ToolCallBuffer where
  id : Option String := none
  name : Option String := none
  args : String := ""
deriving DecidableEq

/-- Per-stream parse state. fillerCount is a ghost observation counter that is
incremented exactly where the source emits the one-space begin-tool-calls
filler; it has no influence on behaviour. -/
structure OAIState where
  toolCallBuffers : List (Nat × ToolCallBuffer) := []
  completedToolCallIndices : List Nat := []
  hasEmittedAssistantText : Bool := false
  emittedBeginToolCallsHint : Bool := false
  xmlThinkActive : Bool := false
  xmlThinkDetectionAttempted : Bool := false
  currentThinkingId : Option String := none
  thinkingBuffer : String := ""
  thinkingFlushTimer : Bool := false
  capturedReasoning : String := ""
  capturedToolCallIds : List String := []
  freshCounter : Nat := 0
  fillerCount : Nat := 0
deriving DecidableEq

def initialOAIState : OAIState := {}

/-- Model of generateThinkingId (time/random replaced by a fresh counter). -/
def genThinkingId (n : Nat) : String := "thinking_" ++ toString n

/-- Model of the random call id generated when a buffered call has no id. -/
def genCallId (n : Nat) : String := "call_" ++ toString n

/-- JS truthiness of the current thinking id (null and empty string are falsy). -/
def thinkingIdTruthy (st : OAIState) : Bool :=
  match st.currentThinkingId with
  | some s => ¬ s.isEmpty
  | none => false

/-- JS expression id or undefined: an empty id is passed as undefined. -/
def idOrNone (o : Option String) : Option String :=
  match o with
  | some s => if s.isEmpty then none else some s
  | none => none

/-- CommonApi.bufferThinkingContent: open a sequence if none is active, append
to the accumulator and mark a delayed flush as pending. -/
def bufferThinkingContent (st : OAIState) (text : String) : OAIState :=
  let st1 :=
    if thinkingIdTruthy st then st
    else { st with currentThinkingId := some (genThinkingId st.freshCounter),
                   freshCounter := st.freshCounter + 1 }
  let st2 := { st1 with thinkingBuffer := st1.thinkingBuffer ++ text }
  { st2 with thinkingFlushTimer := true }

/-- CommonApi.flushThinkingBuffer: cancel the pending timer and emit the
accumulated text under the current sequence id when both are present. -/
def flushThinkingBuffer (st : OAIState) : OAIState × List Part :=
  let st1 := { st with thinkingFlushTimer := false }
  if ¬ st1.thinkingBuffer.isEmpty ∧ thinkingIdTruthy st1 then
    ({ st1 with thinkingBuffer := "" }, [Part.thinking st1.thinkingBuffer st1.currentThinkingId])
  else (st1, [])

/-- CommonApi.reportEndThinking: if a sequence is open, first force a flush and
then emit the empty end marker under the same id; afterwards always clear the
sequence id, the accumulator and any pending flush timer. -/
def reportEndThinking (st : OAIState) : OAIState × List Part :=
  let (st1, parts) :=
    if thinkingIdTruthy st then
      let (stf, fparts) := flushThinkingBuffer st
      (stf, fparts ++ [Part.thinking "" stf.currentThinkingId])
    else (st, [])
  ({ st1 with currentThinkingId := none, thinkingBuffer := "", thinkingFlushTimer := false },
   parts)

/-- CommonApi.tryEmitBufferedToolCall: emit the buffered call at the given index
once a non-empty name is present and the argument text parses as a JSON object;
on success remove the buffer and record the index as completed. -/
def tryEmitBufferedToolCall (st : OAIState) (index : Nat) : OAIState × List Part :=
  match amGet st.toolCallBuffers index with
  | none => (st, [])
  | some buf =>
    match buf.name with
    | none => (st, [])
    | some nm =>
      if nm.isEmpty then (st, [])
      else
        match tryParseJSONObject buf.args with
        | none => (st, [])
        | some fields =>
          let (id, st1) :=
            match buf.id with
            | some i => (i, st)
            | none => (genCallId st.freshCounter, { st with freshCounter := st.freshCounter + 1 })
          ({ st1 with toolCallBuffers := amDel st1.toolCallBuffers index,
                      completedToolCallIndices := setAdd st1.completedToolCallIndices index },
           [Part.toolCall id nm fields])

/-- Error thrown by a strict flush, together with the diagnostic the source
logs alongside it (offending index and an argument snippet). -/
structure FlushError where
  index : Nat
  snippet : String
deriving DecidableEq

/-- Iteration of CommonApi.flushToolCallBuffers over the buffer snapshot. -/
def flushLoop (throwOnInvalid : Bool) :
    List (Nat × ToolCallBuffer) → OAIState → List Part → Option FlushError × OAIState × List Part
  | [], st, parts => (none, st, parts)
  | (idx, buf) :: rest, st, parts =>
    match tryParseJSONObject buf.args with
    | none =>
      if throwOnInvalid then (some ⟨idx, buf.args.take 200⟩, st, parts)
      else flushLoop throwOnInvalid rest st parts
    | some fields =>
      let (id, st1) :=
        match buf.id with
        | some i => (i, st)
        | none => (genCallId st.freshCounter, { st with freshCounter := st.freshCounter + 1 })
      let nm := buf.name.getD "unknown_tool"
      let st2 := { st1 with toolCallBuffers := amDel st1.toolCallBuffers idx,
                            completedToolCallIndices := setAdd st1.completedToolCallIndices idx }
      flushLoop throwOnInvalid rest st2 (parts ++ [Part.toolCall id nm fields])

/-- CommonApi.flushToolCallBuffers: flush every buffered call; with
throwOnInvalid, a call whose arguments are not a valid JSON object aborts with
an error, otherwise such calls are silently skipped. -/
def flushToolCallBuffers (st : OAIState) (throwOnInvalid : Bool) :
    Option FlushError × OAIState × List Part :=
  if st.toolCallBuffers.isEmpty then (none, st, [])
  else flushLoop throwOnInvalid st.toolCallBuffers st []

/-! ## OpenaiApi streaming delta processing -/

def thinkStartTag : String := "<think>"

def thinkEndTag : String := "</think>"

/-- Loop of OpenaiApi.processXmlThinkBlocks; the fuel strictly bounds the
iteration count (every continuing iteration consumes at least the length of a
tag, so fuel = input length + 1 never runs out). -/
def processXmlLoop : Nat → OAIState → List Char → List Part → Bool → OAIState × List Part × Bool
  | 0, st, _, parts, emittedAny => (st, parts, emittedAny)
  | fuel + 1, st, data, parts, emittedAny =>
    if data.isEmpty then (st, parts, emittedAny)
    else if st.xmlThinkActive = false then
      match listIndexOf thinkStartTag.toList data with
      | none => ({ st with xmlThinkDetectionAttempted := true }, parts, emittedAny)
      | some i =>
        let st1 := { st with xmlThinkActive := true,
                             currentThinkingId := some (genThinkingId st.freshCounter),
                             freshCounter := st.freshCounter + 1 }
        processXmlLoop fuel st1 (data.drop (i + thinkStartTag.length)) parts emittedAny
    else
      match listIndexOf thinkEndTag.toList data with
      | none =>
        let content := jsTrim (String.mk data)
        if content.isEmpty then (st, parts, emittedAny)
        else
          ({ st with capturedReasoning := st.capturedReasoning ++ content },
           parts ++ [Part.thinking content (idOrNone st.currentThinkingId)], true)
      | some e =>
        let content := String.mk (data.take e)
        let (st1, parts1, em1) :=
          if content.isEmpty then (st, parts, emittedAny)
          else
            ({ st with capturedReasoning := st.capturedReasoning ++ content },
             parts ++ [Part.thinking content (idOrNone st.currentThinkingId)], true)
        let st2 := { st1 with xmlThinkActive := false, currentThinkingId := none }
        processXmlLoop fuel st2 (data.drop (e + thinkEndTag.length)) parts1 em1

/-- OpenaiApi.processXmlThinkBlocks: scan a content delta for literal think
tags, routing tagged content as thinking parts. -/
def processXmlThinkBlocks (st : OAIState) (input : String) : OAIState × List Part × Bool :=
  if st.xmlThinkDetectionAttempted ∧ st.xmlThinkActive = false then (st, [], false)
  else processXmlLoop (input.length + 1) st input.toList [] false

/-- OpenaiApi.processTextContent: emit any non-empty visible text. -/
def processTextContent (input : String) : List Part × Bool × Bool :=
  if ¬ input.isEmpty then ([Part.text input], true, true) else ([], false, false)

/-- One entry of a streamed reasoning_details array. The encrypted variant is
surfaced as the fixed redaction marker; unknown variants carry their
JSON.stringify rendering. -/
inductive ReasoningDetail where
  | summary (index : Option Int) (text : String)
  | rtext (index : Option Int) (text : String)
  | encrypted (index : Option Int)
  | other (index : Option Int) (stringified : String)
deriving DecidableEq

def detailIndex : ReasoningDetail → Option Int
  | .summary i _ => i
  | .rtext i _ => i
  | .encrypted i => i
  | .other i _ => i

def detailText : ReasoningDetail → String
  | .summary _ s => s
  | .rtext _ t => t
  | .encrypted _ => "[REDACTED]"
  | .other _ j => j

/-- Stable insertion of an element into a key-sorted list (elements with equal
keys keep their relative order, as JS Array.sort is stable). -/
def insertByKey (key : α → Int) (x : α) : List α → List α
  | [] => [x]
  | y :: ys => if key x < key y then x :: y :: ys else y :: insertByKey key x ys

def sortByKey (key : α → Int) : List α → List α
  | [] => []
  | x :: xs => insertByKey key x (sortByKey key xs)

/-- One per-index entry of a streamed tool_calls array (partial id, name and
argument fragment). -/
structure ToolCallFragment where
  index : Option Nat := none
  id : Option String := none
  name : Option String := none
  args : Option String := none
deriving DecidableEq

/-- The delta object of a streamed chunk choice. The thinking field carries the
string extracted from the raw value (string directly, or the text field of an
object payload); reasoning_content is the sibling fallback field. -/
structure DeltaObj where
  content : Option String := none
  tool_calls : Option (List ToolCallFragment) := none
  thinking : Option String := none
  reasoning_content : Option String := none
  reasoning_details : Option (List ReasoningDetail) := none
deriving DecidableEq

structure ChunkChoice where
  delta : Option DeltaObj := none
  thinking : Option String := none
  reasoning_details : Option (List ReasoningDetail) := none
  finish_reason : Option String := none
deriving DecidableEq

/-- A parsed SSE data chunk (delta.choices[0], when present). -/
structure StreamChunk where
  choice : Option ChunkChoice := none
deriving DecidableEq

/-- Buffer a reasoning fragment and extend the captured-reasoning record. -/
def bufferAndCapture (st : OAIState) (t : String) : OAIState :=
  let st1 := bufferThinkingContent st t
  { st1 with capturedReasoning := st1.capturedReasoning ++ t }

/-- Processing of one tool_calls array entry inside OpenaiApi.processDelta:
fragments for completed indices are ignored, otherwise id/name are merged,
argument text is appended, and an immediate emission is attempted. -/
def processToolCallFragment (st : OAIState) (tc : ToolCallFragment) : OAIState × List Part :=
  let idx := tc.index.getD 0
  if st.completedToolCallIndices.contains idx then (st, [])
  else
    let buf := (amGet st.toolCallBuffers idx).getD {}
    let (buf1, st1) :=
      match tc.id with
      | some i =>
        if ¬ i.isEmpty then
          ({ buf with id := some i },
           { st with capturedToolCallIds := setAdd st.capturedToolCallIds i })
        else (buf, st)
      | none => (buf, st)
    let buf2 :=
      match tc.name with
      | some n => if ¬ n.isEmpty then { buf1 with name := some n } else buf1
      | none => buf1
    let buf3 :=
      match tc.args with
      | some a => { buf2 with args := buf2.args ++ a }
      | none => buf2
    let st2 := { st1 with toolCallBuffers := amSet st1.toolCallBuffers idx buf3 }
    tryEmitBufferedToolCall st2 idx

def processFragments (st : OAIState) (tcs : List ToolCallFragment) : OAIState × List Part :=
  tcs.foldl
    (fun acc tc =>
      let r := processToolCallFragment acc.1 tc
      (r.1, acc.2 ++ r.2))
    (st, [])

/-- The reasoning_details fold of OpenaiApi.processDelta: details are sorted
by index and each non-empty text is buffered and captured. -/
def processDetailsFold (st : OAIState) (ds : List ReasoningDetail) : OAIState × Bool :=
  (sortByKey (fun d => (detailIndex d).getD 0) ds).foldl
    (fun (acc : OAIState × Bool) d =>
      let t := detailText d
      if ¬ t.isEmpty then (bufferAndCapture acc.1 t, true) else acc)
    (st, false)

/-- The simple-thinking fallback of OpenaiApi.processDelta: a present non-empty
thinking string is buffered and captured. -/
def thinkingFallbackStep (st1 : OAIState) (emitted1 : Bool) (mt : Option String) :
    OAIState × Bool :=
  match mt with
  | some t => if ¬ t.isEmpty then (bufferAndCapture st1 t, true) else (st1, emitted1)
  | none => (st1, emitted1)

/-- Thinking-related extraction at the top of OpenaiApi.processDelta: a
non-empty reasoning_details array is processed in index order (suppressing the
simple thinking fallback); otherwise the first present of choice.thinking,
delta.thinking and delta.reasoning_content is buffered. Returns the updated
state and the emitted flag so far. -/
def processThinkingSteps (st : OAIState) (choice : ChunkChoice) : OAIState × Bool :=
  let deltaObj := choice.delta
  let maybeThinking0 : Option String :=
    choice.thinking <|> (deltaObj.bind (fun d => d.thinking))
      <|> (deltaObj.bind (fun d => d.reasoning_content))
  let maybeDetails : Option (List ReasoningDetail) :=
    (deltaObj.bind (fun d => d.reasoning_details)) <|> choice.reasoning_details
  match maybeDetails with
  | some ds =>
    if ds.length > 0 then processDetailsFold st ds
    else thinkingFallbackStep st false maybeThinking0
  | none => thinkingFallbackStep st false maybeThinking0

/-- Content handling of OpenaiApi.processDelta: XML think-block scanning, or —
when no tagged thinking was emitted — ending any open thinking sequence and
emitting the text (recording that assistant text was emitted). -/
def processContentStep (st : OAIState) (content : Option String) (emitted : Bool) :
    OAIState × List Part × Bool :=
  match content with
  | some c =>
    if ¬ c.isEmpty then
      let (stx, xparts, xAny) := processXmlThinkBlocks st c
      if xAny then (stx, xparts, true)
      else
        let (ste, eparts) := reportEndThinking stx
        let (tparts, emittedText, tAny) := processTextContent c
        let ste2 :=
          if emittedText then { ste with hasEmittedAssistantText := true } else ste
        (ste2, xparts ++ eparts ++ tparts, emitted || tAny)
    else (st, [], emitted)
  | none => (st, [], emitted)

/-- Tool-calls handling of OpenaiApi.processDelta: end any open thinking
sequence, emit the one-space begin-tool-calls filler when assistant text was
already emitted and the filler was not emitted yet, then process every
fragment. -/
def processToolCallsStep (st : OAIState) (toolCalls : Option (List ToolCallFragment)) :
    OAIState × List Part :=
  match toolCalls with
  | some tcs =>
    let (ste, eparts) := reportEndThinking st
    let (sth, hparts) :=
      if ste.emittedBeginToolCallsHint = false ∧ ste.hasEmittedAssistantText
          ∧ tcs.length > 0 then
        ({ ste with emittedBeginToolCallsHint := true, fillerCount := ste.fillerCount + 1 },
         [Part.text " "])
      else (ste, [])
    let (stf, fparts) := processFragments sth tcs
    (stf, eparts ++ hparts ++ fparts)
  | none => (st, [])

/-- OpenaiApi.processDelta: handle one parsed SSE chunk. Returns the error of a
strict finish-flush (if any), the updated state, the reported parts in order,
and the emitted flag. -/
def processDelta (st : OAIState) (chunk : StreamChunk) :
    Option FlushError × OAIState × List Part × Bool :=
  match chunk.choice with
  | none => (none, st, [], false)
  | some choice =>
    let (st2, emitted2) := processThinkingSteps st choice
    let (st3, parts3, emitted3) :=
      processContentStep st2 (choice.delta.bind (fun d => d.content)) emitted2
    let (st4, parts4) :=
      processToolCallsStep st3 (choice.delta.bind (fun d => d.tool_calls))
    if choice.finish_reason = some "tool_calls" ∨ choice.finish_reason = some "stop" then
      let (err, st5, fparts) := flushToolCallBuffers st4 true
      (err, st5, parts3 ++ parts4 ++ fparts, emitted3)
    else (none, st4, parts3 ++ parts4, emitted3)

/-- One SSE payload line as seen by processStreamingResponse after framing:
the [DONE] terminator, a parsed chunk, or a skipped line (a non-data line or a
line whose JSON failed to parse). -/
inductive Payload where
  | doneMarker
  | chunk (c : StreamChunk)
  | skip

/-- Per-line dispatch of OpenaiApi.processStreamingResponse: [DONE] triggers a
lenient flush; a chunk is processed by processDelta whose thrown errors are
swallowed by the surrounding catch (state changes and parts reported before the
throw persist); other lines are ignored. -/
def processPayload (st : OAIState) : Payload → OAIState × List Part
  | .doneMarker =>
    let r := flushToolCallBuffers st false
    (r.2.1, r.2.2)
  | .chunk c =>
    let r := processDelta st c
    (r.2.1, r.2.2.1)
  | .skip => (st, [])

def runPayloads (st : OAIState) (ps : List Payload) : OAIState × List Part :=
  ps.foldl
    (fun acc p =>
      let r := processPayload acc.1 p
      (r.1, acc.2 ++ r.2))
    (st, [])

/-- A whole stream: the line loop from the initial per-request state followed
by the finally block, which ends any open thinking sequence. -/
def runStream (ps : List Payload) : OAIState × List Part :=
  let (st, parts) := runPayloads initialOAIState ps
  let (st2, eparts) := reportEndThinking st
  (st2, parts ++ eparts)

/-- State component of the line loop (used to speak about prefixes of a run). -/
def runPayloadsState (st : OAIState) (ps : List Payload) : OAIState :=
  ps.foldl (fun s p => (processPayload s p).1) st

/-- True when the chunk carries a non-empty tool_calls array. -/
def chunkHasToolCalls (c : StreamChunk) : Bool :=
  match c.choice with
  | some ch =>
    match ch.delta with
    | some d =>
      match d.tool_calls with
      | some tcs => !tcs.isEmpty
      | none => false
    | none => false
  | none => false

/-- True when the chunk carries non-empty text content. -/
def chunkHasContent (c : StreamChunk) : Bool :=
  match c.choice with
  | some ch =>
    match ch.delta with
    | some d =>
      match d.content with
      | some s => !s.isEmpty
      | none => false
    | none => false
  | none => false

def payloadHasToolCalls : Payload → Bool
  | Payload.chunk c => chunkHasToolCalls c
  | _ => false

def payloadHasContent : Payload → Bool
  | Payload.chunk c => chunkHasContent c
  | _ => false

/-- Equality of the three fields that govern the begin-tool-calls filler: the
ghost emission counter, the per-stream emitted flag, and the prior-text flag. -/
def fillerObsEq (a b : OAIState) : Prop :=
  a.fillerCount = b.fillerCount
    ∧ a.emittedBeginToolCallsHint = b.emittedBeginToolCallsHint
    ∧ a.hasEmittedAssistantText = b.hasEmittedAssistantText

/-! ## OpenaiResponsesApi: cumulative reasoning snapshots and convertMessages

Embedding of src/openai/openaiResponsesApi.ts. The thinking buffer fields are
the CommonApi fields inherited by this subclass; reasoningSoFar is the
subclass's cumulative-snapshot record. -/

structure RespState where
  reasoningSoFar : String := ""
  currentThinkingId : Option String := none
  thinkingBuffer : String := ""
  thinkingFlushTimer : Bool := false
  freshCounter : Nat := 0
deriving DecidableEq

def respThinkingIdTruthy (st : RespState) : Bool :=
  match st.currentThinkingId with
  | some s => ¬ s.isEmpty
  | none => false

/-- CommonApi.bufferThinkingContent specialised to the responses-API state. -/
def respBufferThinkingContent (st : RespState) (text : String) : RespState :=
  let st1 :=
    if respThinkingIdTruthy st then st
    else { st with currentThinkingId := some (genThinkingId st.freshCounter),
                   freshCounter := st.freshCounter + 1 }
  let st2 := { st1 with thinkingBuffer := st1.thinkingBuffer ++ text }
  { st2 with thinkingFlushTimer := true }

/-- CommonApi.flushThinkingBuffer specialised to the responses-API state. -/
def respFlushThinkingBuffer (st : RespState) : RespState × List Part :=
  let st1 := { st with thinkingFlushTimer := false }
  if ¬ st1.thinkingBuffer.isEmpty ∧ respThinkingIdTruthy st1 then
    ({ st1 with thinkingBuffer := "" }, [Part.thinking st1.thinkingBuffer st1.currentThinkingId])
  else (st1, [])

/-- JS String.startsWith, evaluated over the character lists. -/
def strStartsWith (s pre : String) : Bool := pre.toList.isPrefixOf s.toList

/-- JS String.slice from a character offset to the end. -/
def strDropChars (s : String) (n : Nat) : String := String.mk (s.toList.drop n)

/-- OpenaiResponsesApi.bufferReasoningChunk: compare the incoming snapshot with
the previously seen one; a snapshot extending the old one contributes only the
new suffix, a snapshot that is a prefix of the old one contributes nothing, and
unrelated text is contributed whole (with the record extended by it). -/
def bufferReasoningChunk (st : RespState) (text : String) : RespState :=
  if text.isEmpty then st
  else
    let (delta, st1) :=
      if strStartsWith text st.reasoningSoFar then
        (strDropChars text st.reasoningSoFar.length, { st with reasoningSoFar := text })
      else if strStartsWith st.reasoningSoFar text then ("", st)
      else (text, { st with reasoningSoFar := st.reasoningSoFar ++ text })
    if ¬ delta.isEmpty then respBufferThinkingContent st1 delta else st1

/-! ### Canonical chat messages (host-side input to the request builders) -/

inductive Role where
  | system
  | user
  | assistant
deriving DecidableEq

/-- One content part of a host chat message. Tool-result content is collapsed
to its collected text (collectToolResultText) and image bytes are carried as
their base64 rendering, both at the host boundary. -/
inductive MsgPart where
  | text (s : String)
  | image (mimeType : String) (dataB64 : String)
  | toolCall (callId : String) (name : String) (input : List (String × Json))
  | toolResult (callId : String) (content : String)
  | thinking (s : String)

structure ChatMessage where
  role : Role
  content : List MsgPart

/-- JSON.stringify for the values occurring in tool-call inputs. Numeric
rendering abstracts from JS float formatting (integers print exactly; no
property proved here inspects a non-integer rendering). -/
def jsStringEscape (s : String) : String :=
  s.toList.foldl
    (fun acc c =>
      if c == '"' then acc ++ "\\\""
      else if c == '\\' then acc ++ "\\\\"
      else if c == '\n' then acc ++ "\\n"
      else if c == '\r' then acc ++ "\\r"
      else if c == '\t' then acc ++ "\\t"
      else acc ++ String.mk [c])
    ""

mutual

def jsonStringify : Json → String
  | .null => "null"
  | .bool true => "true"
  | .bool false => "false"
  | .num q => if q.den = 1 then toString q.num else toString q
  | .str s => "\"" ++ jsStringEscape s ++ "\""
  | .arr xs => "[" ++ jsonStringifyList xs ++ "]"
  | .obj fs => "\x7b" ++ jsonStringifyFields fs ++ "\x7d"

def jsonStringifyList : List Json → String
  | [] => ""
  | [x] => jsonStringify x
  | x :: y :: xs => jsonStringify x ++ "," ++ jsonStringifyList (y :: xs)

def jsonStringifyFields : List (String × Json) → String
  | [] => ""
  | [(k, v)] => "\"" ++ jsStringEscape k ++ "\":" ++ jsonStringify v
  | (k, v) :: f :: fs =>
    "\"" ++ jsStringEscape k ++ "\":" ++ jsonStringify v ++ "," ++ jsonStringifyFields (f :: fs)

end

/-- Text parts of a message, joined and trimmed as in the converters. -/
def joinedText (m : ChatMessage) : String :=
  jsTrim (String.join (m.content.filterMap
    (fun p => match p with | MsgPart.text s => some s | _ => none)))

/-- Thinking parts of a message, joined and trimmed. -/
def joinedThinking (m : ChatMessage) : String :=
  jsTrim (String.join (m.content.filterMap
    (fun p => match p with | MsgPart.thinking s => some s | _ => none)))

def msgImages (m : ChatMessage) : List (String × String) :=
  m.content.filterMap
    (fun p => match p with | MsgPart.image mt d => some (mt, d) | _ => none)

def msgToolResults (m : ChatMessage) : List (String × String) :=
  m.content.filterMap
    (fun p => match p with | MsgPart.toolResult c t => some (c, t) | _ => none)

/-- Collected tool calls of a message as (id, name, stringified arguments),
generating an id from the fresh counter when the host call id is empty
(JS: part.callId or a random fallback). -/
def collectToolCalls (counter : Nat) (m : ChatMessage) :
    List (String × String × String) × Nat :=
  m.content.foldl
    (fun acc p =>
      match p with
      | MsgPart.toolCall callId name input =>
        let (id, c1) :=
          if callId.isEmpty then ("gen_" ++ toString acc.2, acc.2 + 1) else (callId, acc.2)
        (acc.1 ++ [(id, name, jsonStringify (Json.obj input))], c1)
      | _ => acc)
    ([], counter)

/-! ### OpenaiResponsesApi.convertMessages output items -/

inductive RStatus where
  | completed
  | incomplete
deriving DecidableEq

inductive RespContent where
  | inputText (s : String)
  | inputImage (url : String)
deriving DecidableEq

/-- One item of the emitted Responses input array. Every constructor carries
the status field the source writes on the corresponding literal. -/
inductive RespItem where
  | assistantMsg (id : String) (text : String) (status : RStatus)
  | reasoningItem (id : String) (summary : String) (status : RStatus)
  | functionCall (id : String) (callId : String) (name : String) (arguments : String)
      (status : RStatus)
  | functionCallOutput (id : String) (callId : String) (output : String) (status : RStatus)
  | userMsg (content : List RespContent) (status : RStatus)
deriving DecidableEq

def respItemStatus : RespItem → RStatus
  | .assistantMsg _ _ s => s
  | .reasoningItem _ _ s => s
  | .functionCall _ _ _ _ s => s
  | .functionCallOutput _ _ _ s => s
  | .userMsg _ s => s

def createDataUrl (mimeType dataB64 : String) : String :=
  "data:" ++ mimeType ++ ";base64," ++ dataB64

/-- Content array a user message converts to (text part when non-empty, then
one input_image per image part). -/
def userContentArray (m : ChatMessage) : List RespContent :=
  (if (joinedText m).isEmpty then [] else [RespContent.inputText (joinedText m)])
    ++ (msgImages m).map (fun im => RespContent.inputImage (createDataUrl im.1 im.2))

/-- Assistant-turn items of OpenaiResponsesApi.convertMessages: the output_text
message, the reasoning item and one function_call per collected tool call. -/
def respAssistantItems (c1 : Nat) (jt jth : String)
    (toolCalls : List (String × String × String)) : List RespItem × Nat :=
  let cA := if ¬ jt.isEmpty then c1 + 1 else c1
  let cB := if ¬ jth.isEmpty then cA + 1 else cA
  ((if ¬ jt.isEmpty then
      [RespItem.assistantMsg ("msg_" ++ toString c1) jt RStatus.completed]
    else [])
    ++ (if ¬ jth.isEmpty then
          [RespItem.reasoningItem ("tk_" ++ toString cA) jth RStatus.completed]
        else [])
    ++ toolCalls.map
        (fun tc => RespItem.functionCall ("fc_" ++ tc.1) tc.1 tc.2.1 tc.2.2 RStatus.completed),
   cB)

/-- Tool-output items of OpenaiResponsesApi.convertMessages: one
function_call_output per tool result with a non-empty call id. -/
def respOutputsFold (trs : List (String × String)) (acc : List RespItem × Nat) :
    List RespItem × Nat :=
  trs.foldl
    (fun acc tr =>
      if tr.1.isEmpty then acc
      else
        (acc.1 ++ [RespItem.functionCallOutput ("fco_" ++ toString acc.2) tr.1 tr.2
                    RStatus.completed],
         acc.2 + 1))
    acc

/-- Conversion of one message inside OpenaiResponsesApi.convertMessages,
threading the fresh-name counter and the captured system content. -/
def respStep (includeReasoning : Bool) (counter : Nat) (sys : Option String)
    (m : ChatMessage) : List RespItem × Nat × Option String :=
  let (toolCalls, c1) := collectToolCalls counter m
  let jt := joinedText m
  let jth := if includeReasoning then joinedThinking m else ""
  let (itemsA, c2) :=
    if m.role = Role.assistant then respAssistantItems c1 jt jth toolCalls
    else ([], c1)
  let (itemsB, c3) := respOutputsFold (msgToolResults m) ([], c2)
  let itemsC :=
    if m.role = Role.user then
      if (userContentArray m).isEmpty then []
      else [RespItem.userMsg (userContentArray m) RStatus.completed]
    else []
  let sys1 :=
    if m.role = Role.system ∧ ¬ jt.isEmpty then some jt else sys
  (itemsA ++ itemsB ++ itemsC, c3, sys1)

def respConvertGo (includeReasoning : Bool) (counter : Nat) (sys : Option String) :
    List ChatMessage → List RespItem × Nat × Option String
  | [] => ([], counter, sys)
  | m :: rest =>
    let (items, c1, sys1) := respStep includeReasoning counter sys m
    let (more, c2, sys2) := respConvertGo includeReasoning c1 sys1 rest
    (items ++ more, c2, sys2)

/-- Final adjustment of OpenaiResponsesApi.convertMessages: when the last item
is a user message, its status is rewritten to incomplete. -/
def markLastIncomplete (out : List RespItem) : List RespItem :=
  match out.getLast? with
  | some (RespItem.userMsg c _) => out.dropLast ++ [RespItem.userMsg c RStatus.incomplete]
  | _ => out

/-- OpenaiResponsesApi.convertMessages: emitted input array and captured
system content (used for the top-level instructions field). -/
def respConvertMessages (includeReasoning : Bool) (msgs : List ChatMessage) :
    List RespItem × Option String :=
  let (out, _, sys) := respConvertGo includeReasoning 0 none msgs
  (markLastIncomplete out, sys)

/-! ## AnthropicApi.convertMessages

Embedding of src/anthropic/anthropicApi.ts convertMessages: system turns are
lifted into the captured system content and skipped; user/assistant turns
become ordered block lists; tool results on non-user turns are dropped with a
logged warning (collected in the returned diagnostics list). -/

inductive ABlock where
  | text (s : String)
  | image (mediaType : String) (dataB64 : String)
  | thinking (s : String)
  | toolUse (id : String) (name : String) (input : List (String × Json))
  | toolResult (toolUseId : String) (content : String)

structure AMessage where
  role : Role
  content : List ABlock

def anthropicToolResultWarning : String :=
  "[Anthropic Provider] Tool results found in non-user message, ignoring"

/-- Collected tool_use blocks of a message (id from the host call id, or a
generated one when it is empty), threading the fresh counter. -/
def collectAnthToolUses (counter : Nat) (m : ChatMessage) :
    List ABlock × Nat :=
  m.content.foldl
    (fun acc p =>
      match p with
      | MsgPart.toolCall callId name input =>
        let (id, c1) :=
          if callId.isEmpty then ("toolu_" ++ toString acc.2, acc.2 + 1) else (callId, acc.2)
        (acc.1 ++ [ABlock.toolUse id name input], c1)
      | _ => acc)
    ([], counter)

/-- Conversion of one message inside AnthropicApi.convertMessages. Returns the
emitted messages (none or one), the logged diagnostics, the updated captured
system content and the updated fresh counter. -/
def anthropicStep (includeReasoning : Bool) (counter : Nat) (sys : Option String)
    (m : ChatMessage) : List AMessage × List String × Option String × Nat :=
  let (toolUses, c1) := collectAnthToolUses counter m
  let toolResults := msgToolResults m
  let jt := joinedText m
  let jth := joinedThinking m
  if m.role = Role.system then
    ([], [], (if ¬ jt.isEmpty then some jt else sys), c1)
  else
    let blocks :=
      (if ¬ jt.isEmpty then [ABlock.text jt] else [])
        ++ (msgImages m).map (fun im => ABlock.image im.1 im.2)
        ++ (if m.role = Role.assistant ∧ includeReasoning ∧ ¬ jth.isEmpty then
              [ABlock.thinking jth]
            else [])
        ++ toolUses
        ++ (if m.role = Role.user then
              toolResults.map (fun tr => ABlock.toolResult tr.1 tr.2)
            else [])
    let warns :=
      if m.role = Role.user ∨ toolResults.isEmpty then []
      else [anthropicToolResultWarning]
    let msgs := if blocks.isEmpty then [] else [AMessage.mk m.role blocks]
    (msgs, warns, sys, c1)

def anthropicConvertGo (includeReasoning : Bool) (counter : Nat) (sys : Option String) :
    List ChatMessage → List AMessage × List String × Option String × Nat
  | [] => ([], [], sys, counter)
  | m :: rest =>
    let (msgs, warns, sys1, c1) := anthropicStep includeReasoning counter sys m
    let (more, warns2, sys2, c2) := anthropicConvertGo includeReasoning c1 sys1 rest
    (msgs ++ more, warns ++ warns2, sys2, c2)

/-- AnthropicApi.convertMessages: emitted messages, logged diagnostics and
captured system content. -/
def anthropicConvertMessages (includeReasoning : Bool) (msgs : List ChatMessage) :
    List AMessage × List String × Option String :=
  let (out, warns, sys, _) := anthropicConvertGo includeReasoning 0 none msgs
  (out, warns, sys)

/-! ## OpenaiApi.prepareRequestBody

Embedding of the chat-completions request builder. The request body is an
insertion-ordered association list of JSON values. A model-configuration field
of type Option (Option Rat) distinguishes absent (none) from explicitly null
(some none) from a set number (some (some q)). -/

structure ReasoningConfig where
  effort : Option String := none
  exclude : Option Bool := none
  max_tokens : Option Rat := none
  enabled : Option Bool := none
deriving DecidableEq

structure HFModelItem where
  temperature : Option (Option Rat) := none
  top_p : Option (Option Rat) := none
  max_tokens : Option Rat := none
  max_completion_tokens : Option Rat := none
  reasoning_effort : Option String := none
  enable_thinking : Option Bool := none
  thinking_budget : Option Rat := none
  thinkingType : Option String := none
  reasoning : Option ReasoningConfig := none
  top_k : Option Rat := none
  min_p : Option Rat := none
  frequency_penalty : Option Rat := none
  presence_penalty : Option Rat := none
  repetition_penalty : Option Rat := none
  extra : Option (List (String × Json)) := none

structure ModelOptions where
  temperature : Option Rat := none
  stop : Option Json := none

structure ToolDef where
  name : String
  description : String := ""
  inputSchema : Option Json := none

structure ChatOptions where
  modelOptions : Option ModelOptions := none
  tools : List ToolDef := []
  toolModeRequired : Bool := false

def RBody : Type := List (String × Json)

def defaultToolSchema : Json :=
  Json.obj [("type", Json.str "object"), ("properties", Json.obj [])]

def toolDefJson (t : ToolDef) : Json :=
  Json.obj [("type", Json.str "function"),
            ("function", Json.obj [("name", Json.str t.name),
                                   ("description", Json.str t.description),
                                   ("parameters", t.inputSchema.getD defaultToolSchema)])]

/-- utils.ts convertToolsToOpenAI: with no tools nothing is returned; otherwise
the tool definitions plus a tool_choice that is auto, or the single mandatory
tool (failing when the required mode sees more than one tool). -/
def convertToolsToOpenAI (opts : ChatOptions) :
    Except String (Option Json × Option Json) :=
  if opts.tools.isEmpty then Except.ok (none, none)
  else
    let defs := Json.arr (opts.tools.map toolDefJson)
    if opts.toolModeRequired then
      if opts.tools.length ≠ 1 then
        Except.error "LanguageModelChatToolMode.Required is not supported with more than one tool"
      else
        Except.ok (some defs,
          some (Json.obj [("type", Json.str "function"),
                          ("function", Json.obj
                            [("name", Json.str (((opts.tools.head?).map
                                (fun t => t.name)).getD ""))])]))
    else Except.ok (some defs, some (Json.str "auto"))

/-- true for JSON values accepted by the stop-field guard (a string or array). -/
def isStringOrArr : Json → Bool
  | Json.str _ => true
  | Json.arr _ => true
  | _ => false

/-- OpenRouter reasoning sub-object built by prepareRequestBody: effort when a
non-auto effort is set, otherwise the max_tokens fallback (2000 when the
configured budget is missing or zero, mirroring the JS or-default). -/
def reasoningObjOf (rc : ReasoningConfig) : Json :=
  let base : List (String × Json) :=
    match rc.effort with
    | some e =>
      if ¬ e.isEmpty ∧ e ≠ "auto" then [("effort", Json.str e)]
      else [("max_tokens", Json.num (match rc.max_tokens with
                                     | some q => if q = 0 then 2000 else q
                                     | none => 2000))]
    | none => [("max_tokens", Json.num (match rc.max_tokens with
                                        | some q => if q = 0 then 2000 else q
                                        | none => 2000))]
  match rc.exclude with
  | some b => Json.obj (base ++ [("exclude", Json.bool b)])
  | none => Json.obj base

def stepTemperature (um : Option HFModelItem) (opts : ChatOptions) (rb : RBody) : RBody :=
  let oTemp : Rat := ((opts.modelOptions.bind (fun mo => mo.temperature)).getD 0)
  let tval : Rat :=
    match um with
    | some u => match u.temperature with
                | some (some q) => q
                | _ => oTemp
    | none => oTemp
  let rb1 := amSet rb "temperature" (Json.num tval)
  match um with
  | some u => if u.temperature = some none then amDel rb1 "temperature" else rb1
  | none => rb1

def stepTopP (um : Option HFModelItem) (rb : RBody) : RBody :=
  match um.bind (fun u => u.top_p) with
  | some (some q) => amSet rb "top_p" (Json.num q)
  | _ => rb

def stepMaxTokens (um : Option HFModelItem) (rb : RBody) : RBody :=
  match um.bind (fun u => u.max_tokens) with
  | some q => amSet rb "max_tokens" (Json.num q)
  | none => rb

def stepMaxCompletionTokens (um : Option HFModelItem) (rb : RBody) : RBody :=
  match um.bind (fun u => u.max_completion_tokens) with
  | some q => amSet rb "max_completion_tokens" (Json.num q)
  | none => rb

def stepReasoningEffort (um : Option HFModelItem) (rb : RBody) : RBody :=
  match um.bind (fun u => u.reasoning_effort) with
  | some e => amSet rb "reasoning_effort" (Json.str e)
  | none => rb

def stepEnableThinking (um : Option HFModelItem) (rb : RBody) : RBody :=
  match um.bind (fun u => u.enable_thinking) with
  | some b =>
    let rb1 := amSet rb "enable_thinking" (Json.bool b)
    match um.bind (fun u => u.thinking_budget) with
    | some q => amSet rb1 "thinking_budget" (Json.num q)
    | none => rb1
  | none => rb

def stepThinkingType (um : Option HFModelItem) (rb : RBody) : RBody :=
  match um.bind (fun u => u.thinkingType) with
  | some ty => amSet rb "thinking" (Json.obj [("type", Json.str ty)])
  | none => rb

def stepReasoning (um : Option HFModelItem) (rb : RBody) : RBody :=
  match um.bind (fun u => u.reasoning) with
  | some rc =>
    if rc.enabled = some false then rb
    else amSet rb "reasoning" (reasoningObjOf rc)
  | none => rb

def stepStop (opts : ChatOptions) (rb : RBody) : RBody :=
  match opts.modelOptions with
  | some mo =>
    match mo.stop with
    | some j => if isStringOrArr j then amSet rb "stop" j else rb
    | none => rb
  | none => rb

def stepTools (tc : Option Json × Option Json) (rb : RBody) : RBody :=
  let rb1 := match tc.1 with
             | some j => amSet rb "tools" j
             | none => rb
  match tc.2 with
  | some j => amSet rb1 "tool_choice" j
  | none => rb1

def stepTopK (um : Option HFModelItem) (rb : RBody) : RBody :=
  match um.bind (fun u => u.top_k) with
  | some q => amSet rb "top_k" (Json.num q)
  | none => rb

def stepMinP (um : Option HFModelItem) (rb : RBody) : RBody :=
  match um.bind (fun u => u.min_p) with
  | some q => amSet rb "min_p" (Json.num q)
  | none => rb

def stepFrequencyPenalty (um : Option HFModelItem) (rb : RBody) : RBody :=
  match um.bind (fun u => u.frequency_penalty) with
  | some q => amSet rb "frequency_penalty" (Json.num q)
  | none => rb

def stepPresencePenalty (um : Option HFModelItem) (rb : RBody) : RBody :=
  match um.bind (fun u => u.presence_penalty) with
  | some q => amSet rb "presence_penalty" (Json.num q)
  | none => rb

def stepRepetitionPenalty (um : Option HFModelItem) (rb : RBody) : RBody :=
  match um.bind (fun u => u.repetition_penalty) with
  | some q => amSet rb "repetition_penalty" (Json.num q)
  | none => rb

def stepExtra (um : Option HFModelItem) (rb : RBody) : RBody :=
  match um.bind (fun u => u.extra) with
  | some entries => entries.foldl (fun acc e => amSet acc e.1 e.2) rb
  | none => rb

/-- OpenaiApi.prepareRequestBody, with the field steps applied in source order.
The only failure is the tool-choice constraint raised by convertToolsToOpenAI;
it is independent of the body, so it is checked up front (the source throws
mid-sequence, discarding the partially built body the same way). -/
def prepareRequestBody (rb : RBody) (um : Option HFModelItem) (opts : ChatOptions) :
    Except String RBody :=
  match convertToolsToOpenAI opts with
  | Except.error e => Except.error e
  | Except.ok tc =>
    Except.ok
      (stepExtra um
        (stepRepetitionPenalty um
          (stepPresencePenalty um
            (stepFrequencyPenalty um
              (stepMinP um
                (stepTopK um
                  (stepTools tc
                    (stepStop opts
                      (stepReasoning um
                        (stepThinkingType um
                          (stepEnableThinking um
                            (stepReasoningEffort um
                              (stepMaxCompletionTokens um
                                (stepMaxTokens um
                                  (stepTopP um
                                    (stepTemperature um opts rb))))))))))))))))

/-- Lookup of the top_p field of a build result (none when the build failed). -/
def topPOf (r : Except String RBody) : Option (Option Json) :=
  match r with
  | Except.ok out => some (amGet out "top_p")
  | Except.error _ => none

/-! ## Retry executor (utils.ts executeWithRetry)

The attempt function is modelled as a map from the invocation number to its
outcome; the executor returns the final outcome together with the number of
invocations performed. -/

structure RetryConfig where
  enabled : Option Bool := none
  max_attempts : Option Nat := none
  interval_ms : Option Nat := none
  status_codes : Option (List Nat) := none
deriving DecidableEq

def RETRY_MAX_ATTEMPTS : Nat := 3

def RETRYABLE_STATUS_CODES : List Nat := [429, 500, 502, 503, 504]

/-- Spread of two arrays through a Set: duplicates removed, first occurrence
order kept. -/
def dedupAppend (base add : List Nat) : List Nat :=
  (base ++ add).foldl (fun acc c => if acc.contains c then acc else acc ++ [c]) []

/-- Retryable status codes: the fixed defaults unioned with configured extras. -/
def retryableCodes (cfg : RetryConfig) : List Nat :=
  match cfg.status_codes with
  | some cs => dedupAppend RETRYABLE_STATUS_CODES cs
  | none => RETRYABLE_STATUS_CODES

/-- An error is retryable when its message contains a bracketed retryable code. -/
def isRetryableError (codes : List Nat) (msg : String) : Bool :=
  codes.any (fun c => strContains msg ("[" ++ toString c ++ "]"))

/-- The retry loop of executeWithRetry: attempts run while the error is
retryable and the attempt counter has not reached maxAttempts; the fuel mirrors
the loop bound (attempt from 0 to maxAttempts inclusive), with the source
post-loop throw as the fuel-exhausted fallback. -/
def retryLoop (fn : Nat → Except String α) (codes : List Nat) (maxAttempts : Nat) :
    Nat → Nat → Option String → Except String α × Nat
  | 0, attempt, lastErr => (Except.error (lastErr.getD "Retry failed"), attempt)
  | fuel + 1, attempt, _ =>
    match fn attempt with
    | Except.ok v => (Except.ok v, attempt + 1)
    | Except.error e =>
      if isRetryableError codes e = false ∨ attempt = maxAttempts then
        (Except.error e, attempt + 1)
      else retryLoop fn codes maxAttempts fuel (attempt + 1) (some e)

/-- utils.ts executeWithRetry. A falsy enabled flag (absent or false) makes a
single attempt with no retry handling. -/
def executeWithRetry (fn : Nat → Except String α) (cfg : RetryConfig) :
    Except String α × Nat :=
  if cfg.enabled ≠ some true then (fn 0, 1)
  else
    let maxAttempts := cfg.max_attempts.getD RETRY_MAX_ATTEMPTS
    retryLoop fn (retryableCodes cfg) maxAttempts (maxAttempts + 1) 0 none

/-! ## Concrete fixtures used by witnesses and counterexamples -/

/-- Retry policy with three max attempts, as in the configuration defaults. -/
def cfgRetry3 : RetryConfig :=
  { enabled := some true, max_attempts := some 3, interval_ms := some 1000 }

/-- An attempt function that always fails with a retryable 429 error. -/
def alwaysFail429 : Nat → Except String Unit :=
  fun _ => Except.error "[429] Too Many Requests"

/-- An attempt function failing retryably twice, then succeeding. -/
def failTwiceThenOk : Nat → Except String Nat :=
  fun i => if i < 2 then Except.error "status [429] rate limited" else Except.ok 7

/-- An attempt function failing with a non-retryable 400 error. -/
def alwaysFail400 : Nat → Except String Nat :=
  fun _ => Except.error "[400] Bad Request"

/-- Stream-parse state holding one buffered call whose argument text is not
valid JSON (the spec example fragment). -/
def stInvalidBuf : OAIState :=
  { toolCallBuffers := [(0, { name := some "f", args := "\x7b\"a\":" })] }

/-- Chunk carrying only a stop finish reason. -/
def chunkStop : StreamChunk := { choice := some { finish_reason := some "stop" } }

/-- Chunk carrying only a tool_calls finish reason. -/
def chunkFinishToolCalls : StreamChunk :=
  { choice := some { finish_reason := some "tool_calls" } }

/-- State holding a buffered call with valid JSON arguments but no name and no
id (only argument fragments ever arrived). -/
def stNoNameBuf : OAIState :=
  { toolCallBuffers := [(2, { args := "\x7b\"a\":1\x7d" })] }

/-- State with an open thinking sequence and pending buffered text. -/
def stOpenThinking : OAIState :=
  { currentThinkingId := some "tid", thinkingBuffer := "tail", thinkingFlushTimer := true }

/-- Buffered tool call of the spec example after both fragments arrived. -/
def bufSpecExample : ToolCallBuffer :=
  { id := some "call_a", name := some "f", args := "\x7b\"a\":1\x7d" }

def stSpecExample : OAIState := { toolCallBuffers := [(0, bufSpecExample)] }

/-- Fragment for an index that is already completed. -/
def fragLate : ToolCallFragment := { index := some 0, args := some "\x7b\x7d" }

def stCompleted0 : OAIState := { completedToolCallIndices := [0] }

/-- Responses-state after the provider sent the snapshot Hello. -/
def rsHello : RespState := { reasoningSoFar := "Hello" }

/-- Responses-state after the provider sent the snapshot Hello world. -/
def rsHelloWorld : RespState := { reasoningSoFar := "Hello world" }

/-- An assistant turn carrying a tool result (for the diagnostic contrast). -/
def msgAssistantToolResult : ChatMessage :=
  ChatMessage.mk Role.assistant [MsgPart.text "a", MsgPart.toolResult "c1" "out"]

/-- Request body as initialised by the provider before prepareRequestBody. -/
def rbInit : RBody := [("model", Json.str "m")]

def optsNone : ChatOptions := {}

/-- Model configuration with top_p left unset. -/
def umTopPUnset : HFModelItem := {}

/-- Model configuration with top_p explicitly null. -/
def umTopPNull : HFModelItem := { top_p := some none }

/-- Model configuration with explicit sampling numbers. -/
def umSampling : HFModelItem :=
  { temperature := some (some 1), top_p := some (some 1) }

/-- Two-turn conversation ending in a user message. -/
def convTwoTurn : List ChatMessage :=
  [ChatMessage.mk Role.assistant [MsgPart.text "hi there"],
   ChatMessage.mk Role.user [MsgPart.text "question"]]

/-- Conversation ending in a user turn that carries only a tool result: a
question, the assistant's function call, and the tool-result-only reply. -/
def convToolResultTail : List ChatMessage :=
  [ChatMessage.mk Role.user [MsgPart.text "question"],
   ChatMessage.mk Role.assistant [MsgPart.toolCall "c1" "f" []],
   ChatMessage.mk Role.user [MsgPart.toolResult "c1" "out"]]

/-- Conversation whose system turn carries a tool result. -/
def convSystemToolResult : List ChatMessage :=
  [ChatMessage.mk Role.system [MsgPart.toolResult "c1" "out", MsgPart.text "sys"],
   ChatMessage.mk Role.user [MsgPart.text "hi"]]

/-- Chunk carrying plain text content. -/
def chunkHello : StreamChunk :=
  { choice := some { delta := some { content := some "hello" } } }

/-- First and second argument fragments of the spec example for index 0. -/
def fragSpec1 : ToolCallFragment :=
  { index := some 0, id := some "call_a", name := some "f", args := some "\x7b\"a\":" }

def fragSpec2 : ToolCallFragment := { index := some 0, args := some "1\x7d" }

def chunkFrag1 : StreamChunk :=
  { choice := some { delta := some { tool_calls := some [fragSpec1] } } }

def chunkFrag2 : StreamChunk :=
  { choice := some { delta := some { tool_calls := some [fragSpec2] } } }

/-- Stream with assistant text before the tool-call fragments. -/
def psWithTools : List Payload :=
  [Payload.chunk chunkHello, Payload.chunk chunkFrag1, Payload.chunk chunkFrag2,
   Payload.doneMarker]

/-- Stream carrying only text and the terminator. -/
def psNoTools : List Payload := [Payload.chunk chunkHello, Payload.doneMarker]

/-- State in which assistant text was already emitted. -/
def stAfterText : OAIState := { hasEmittedAssistantText := true }

/-! # Theorems

Helper lemmas first, then one theorem per claim (with witnesses and
counterexamples as required). -/

/-! ## Association map and set lemmas -/

theorem amGet_amDel_self [BEq κ] [LawfulBEq κ] (m : List (κ × ν)) (k : κ) :
    amGet (amDel m k) k = none := by
  have hfind : (amDel m k).find? (fun e => e.1 == k) = none := by
    rw [List.find?_eq_none]
    intro x hx
    simp only [amDel, List.mem_filter] at hx
    simpa using hx.2
  simp [amGet, hfind]

theorem setAdd_contains_self [BEq κ] [LawfulBEq κ] (s : List κ) (k : κ) :
    (setAdd s k).contains k = true := by
  simp only [setAdd]
  by_cases h : s.contains k = true
  · rw [if_pos h]; exact h
  · rw [if_neg h]; simp

/-! ## Retry executor lemmas and claim C3 -/

theorem retryLoop_count_le (fn : Nat → Except String α) (codes : List Nat) (maxA : Nat) :
    ∀ fuel attempt le, (retryLoop fn codes maxA fuel attempt le).2 ≤ attempt + fuel := by
  intro fuel
  induction fuel with
  | zero => intro attempt le; simp [retryLoop]
  | succ f ih =>
    intro attempt le
    cases h : fn attempt with
    | ok v => simp [retryLoop, h]
    | error e =>
      by_cases hc : isRetryableError codes e = false ∨ attempt = maxA
      · simp [retryLoop, h, hc]
      · have := ih (attempt + 1) (some e)
        simp [retryLoop, h, hc]
        omega

theorem retryLoop_exhaust (fn : Nat → Except String α) (codes : List Nat) (maxA : Nat) :
    ∀ fuel attempt le, attempt + fuel = maxA + 1 → attempt ≤ maxA →
    (∀ i, attempt ≤ i → i ≤ maxA →
      ∃ e, fn i = Except.error e ∧ isRetryableError codes e = true) →
    ∃ e, fn maxA = Except.error e ∧
      retryLoop fn codes maxA fuel attempt le = (Except.error e, maxA + 1) := by
  intro fuel
  induction fuel with
  | zero => intro attempt le hsum hle hall; omega
  | succ f ih =>
    intro attempt le hsum hle hall
    obtain ⟨e, he, hret⟩ := hall attempt le_rfl hle
    by_cases hm : attempt = maxA
    · subst hm
      refine ⟨e, he, ?_⟩
      simp [retryLoop, he, hret]
    · have hlt : attempt < maxA := lt_of_le_of_ne hle hm
      have hrec := ih (attempt + 1) (some e) (by omega) (by omega)
        (fun i h1 h2 => hall i (by omega) h2)
      obtain ⟨e2, he2, hr2⟩ := hrec
      refine ⟨e2, he2, ?_⟩
      simp [retryLoop, he, hret, hm, hr2]

/-- C3 counterexample: with retries enabled and maxAttempts = 3, an attempt
function that always fails with retryable status 429 is invoked 4 times, not
at most 3 as the claim states. -/
theorem claim_C3_counterexample :
    executeWithRetry alwaysFail429 cfgRetry3
        = (Except.error "[429] Too Many Requests", 4)
      ∧ cfgRetry3.max_attempts = some 3 ∧ ¬ (4 ≤ 3) := by
  exact ⟨rfl, rfl, by decide⟩

/-- C3 (amended): with retries enabled the executor invokes the attempt
function at most maxAttempts + 1 times (one initial attempt plus maxAttempts
retries); when every attempt up to maxAttempts fails with a retryable status
code it fails with the last error after exactly maxAttempts + 1 invocations; a
failure whose embedded status code is not retryable propagates immediately
after a single invocation; and when retries are disabled exactly one attempt
is made. -/
theorem claim_C3 (fn : Nat → Except String α) (cfg : RetryConfig) :
    (cfg.enabled = some true →
      (executeWithRetry fn cfg).2 ≤ cfg.max_attempts.getD RETRY_MAX_ATTEMPTS + 1)
    ∧ (cfg.enabled = some true →
        (∀ i, i ≤ cfg.max_attempts.getD RETRY_MAX_ATTEMPTS →
          ∃ e, fn i = Except.error e ∧ isRetryableError (retryableCodes cfg) e = true) →
        ∃ e, fn (cfg.max_attempts.getD RETRY_MAX_ATTEMPTS) = Except.error e ∧
          executeWithRetry fn cfg
            = (Except.error e, cfg.max_attempts.getD RETRY_MAX_ATTEMPTS + 1))
    ∧ (cfg.enabled = some true →
        ∀ e, fn 0 = Except.error e → isRetryableError (retryableCodes cfg) e = false →
        executeWithRetry fn cfg = (Except.error e, 1))
    ∧ (cfg.enabled ≠ some true → executeWithRetry fn cfg = (fn 0, 1)) := by
  refine ⟨?_, ?_, ?_, ?_⟩
  · intro hen
    have h := retryLoop_count_le fn (retryableCodes cfg)
      (cfg.max_attempts.getD RETRY_MAX_ATTEMPTS)
      (cfg.max_attempts.getD RETRY_MAX_ATTEMPTS + 1) 0 none
    simp only [executeWithRetry, hen]
    simpa using h
  · intro hen hall
    have h := retryLoop_exhaust fn (retryableCodes cfg)
      (cfg.max_attempts.getD RETRY_MAX_ATTEMPTS)
      (cfg.max_attempts.getD RETRY_MAX_ATTEMPTS + 1) 0 none (by omega) (by omega)
      (fun i _ h2 => hall i h2)
    simp only [executeWithRetry, hen]
    simpa using h
  · intro hen e he hret
    simp [executeWithRetry, hen, retryLoop, he, hret]
  · intro hen
    simp [executeWithRetry, hen]

/-- C3 witness: the amended statement instantiated on the concrete fixtures: a
function failing retryably on every attempt exhausts 3 + 1 invocations, a
400-failure is not retried, and a disabled policy makes one attempt. -/
theorem claim_C3_witness :
    (∃ e, alwaysFail429 3 = Except.error e ∧
      executeWithRetry alwaysFail429 cfgRetry3 = (Except.error e, 4))
    ∧ executeWithRetry alwaysFail400 cfgRetry3 = (Except.error "[400] Bad Request", 1)
    ∧ executeWithRetry alwaysFail429 { enabled := some false }
        = (alwaysFail429 0, 1) := by
  refine ⟨?_, ?_, ?_⟩
  · exact (claim_C3 alwaysFail429 cfgRetry3).2.1 rfl
      (fun i _ => ⟨"[429] Too Many Requests", rfl, by decide⟩)
  · exact (claim_C3 alwaysFail400 cfgRetry3).2.2.1 rfl "[400] Bad Request" rfl (by decide)
  · exact (claim_C3 alwaysFail429 { enabled := some false }).2.2.2 (by decide)

/-! ## Flush asymmetry (C1) and terminal-flush name fallback (C10) -/

/-- C1: for a stream-parse state holding one buffered tool call whose
accumulated argument text is not valid JSON, the terminator-payload ([DONE])
flush performed by the line loop drops the buffered call silently — no part is
emitted and no error is raised (the lenient mode of flushToolCallBuffers never
errors) — whereas processing a chunk whose finish_reason is stop or tool_calls
runs the same flush routine in throwOnInvalid mode and fails with an error
identifying the offending call by its index and an argument snippet. -/
theorem claim_C1 (st : OAIState) (idx : Nat) (buf : ToolCallBuffer)
    (hbuf : st.toolCallBuffers = [(idx, buf)])
    (hinv : tryParseJSONObject buf.args = none) :
    processPayload st Payload.doneMarker = (st, [])
    ∧ flushToolCallBuffers st false = (none, st, [])
    ∧ flushToolCallBuffers st true = (some ⟨idx, buf.args.take 200⟩, st, [])
    ∧ (processDelta st chunkStop).1 = some ⟨idx, buf.args.take 200⟩
    ∧ (processDelta st chunkFinishToolCalls).1 = some ⟨idx, buf.args.take 200⟩ := by
  have hlen : flushToolCallBuffers st false = (none, st, []) := by
    simp [flushToolCallBuffers, flushLoop, hbuf, hinv]
  have hstr : flushToolCallBuffers st true = (some ⟨idx, buf.args.take 200⟩, st, []) := by
    simp [flushToolCallBuffers, flushLoop, hbuf, hinv]
  refine ⟨?_, hlen, hstr, ?_, ?_⟩
  · simp [processPayload, hlen]
  · simp [processDelta, processThinkingSteps, thinkingFallbackStep, processContentStep,
      processToolCallsStep, chunkStop, hstr]
  · simp [processDelta, processThinkingSteps, thinkingFallbackStep, processContentStep,
      processToolCallsStep, chunkFinishToolCalls, hstr]

/-- C1 witness: the fixture state buffers the spec example fragment at index 0;
the [DONE] flush is silent and the stop finish-flush errors on index 0. -/
theorem claim_C1_witness :
    processPayload stInvalidBuf Payload.doneMarker = (stInvalidBuf, [])
    ∧ (processDelta stInvalidBuf chunkStop).1 = some ⟨0, "\x7b\"a\":"⟩ := by
  have h := claim_C1 stInvalidBuf 0 { name := some "f", args := "\x7b\"a\":" } rfl rfl
  exact ⟨h.1, h.2.2.2.1⟩

/-- C10: on terminal flush in either mode, a buffered call whose argument text
parses as a JSON object is emitted even though no name fragment ever arrived:
the name falls back to unknown_tool and the missing id is freshly generated —
whereas incremental emission (tryEmitBufferedToolCall) refuses to emit the very
same buffer because it has no name. -/
theorem claim_C10 (st : OAIState) (idx : Nat) (args : String)
    (fields : List (String × Json)) (b : Bool)
    (hbuf : st.toolCallBuffers = [(idx, { id := none, name := none, args := args })])
    (hok : tryParseJSONObject args = some fields) :
    flushToolCallBuffers st b
      = (none,
         { st with toolCallBuffers := [],
                   completedToolCallIndices := setAdd st.completedToolCallIndices idx,
                   freshCounter := st.freshCounter + 1 },
         [Part.toolCall (genCallId st.freshCounter) "unknown_tool" fields])
    ∧ tryEmitBufferedToolCall st idx = (st, []) := by
  constructor
  · simp [flushToolCallBuffers, flushLoop, hbuf, hok, amDel]
  · simp [tryEmitBufferedToolCall, amGet, hbuf]

/-- C10 witness: the fixture buffer at index 2 has valid arguments and no name;
both flush modes emit it as unknown_tool with a generated id, while the
incremental path emits nothing. -/
theorem claim_C10_witness :
    (flushToolCallBuffers stNoNameBuf true
      = (none,
         { stNoNameBuf with toolCallBuffers := [],
                            completedToolCallIndices := [2], freshCounter := 1 },
         [Part.toolCall "call_0" "unknown_tool" [("a", Json.num 1)]])
      ∧ tryEmitBufferedToolCall stNoNameBuf 2 = (stNoNameBuf, []))
    ∧ (flushToolCallBuffers stNoNameBuf false
      = (none,
         { stNoNameBuf with toolCallBuffers := [],
                            completedToolCallIndices := [2], freshCounter := 1 },
         [Part.toolCall "call_0" "unknown_tool" [("a", Json.num 1)]])
      ∧ tryEmitBufferedToolCall stNoNameBuf 2 = (stNoNameBuf, [])) :=
  ⟨claim_C10 stNoNameBuf 2 "\x7b\"a\":1\x7d" [("a", Json.num 1)] true rfl rfl,
   claim_C10 stNoNameBuf 2 "\x7b\"a\":1\x7d" [("a", Json.num 1)] false rfl rfl⟩

/-! ## Thinking-sequence close (C8) -/

/-- C8: whenever the closing routine reportEndThinking runs on a state with an
open thinking sequence — it is invoked when ordinary text resumes, when a tool
call begins and when the stream ends — any pending buffered thinking text is
first flushed as a thinking delta under the current sequence id, only then is
the empty sequence-end marker emitted under the same id, and the resulting
state has the accumulator, the sequence id and the pending flush timer all
cleared. -/
theorem claim_C8 (st : OAIState) (tid : String)
    (hid : st.currentThinkingId = some tid) (hne : tid.isEmpty = false) :
    reportEndThinking st
      = ({ st with currentThinkingId := none, thinkingBuffer := "",
                   thinkingFlushTimer := false },
         (if st.thinkingBuffer.isEmpty then []
          else [Part.thinking st.thinkingBuffer (some tid)])
           ++ [Part.thinking "" (some tid)]) := by
  by_cases hb : st.thinkingBuffer.isEmpty
  · simp [reportEndThinking, flushThinkingBuffer, thinkingIdTruthy, hid, hne, hb]
  · simp [reportEndThinking, flushThinkingBuffer, thinkingIdTruthy, hid, hne, hb]

/-- C8 witness: on the fixture state with buffered text tail under sequence id
tid and a pending timer, closing emits the flush then the end marker and clears
the state. -/
theorem claim_C8_witness :
    reportEndThinking stOpenThinking
      = ({ stOpenThinking with currentThinkingId := none, thinkingBuffer := "",
                               thinkingFlushTimer := false },
         [Part.thinking "tail" (some "tid"), Part.thinking "" (some "tid")]) := by
  have h := claim_C8 stOpenThinking "tid" rfl rfl
  simpa using h

/-! ## Tool-call assembler (C2) -/

/-- C2: the assembler emits no tool-call event while the accumulated argument
text is not a valid JSON object; once the buffer parses as an object (and a
non-empty name is buffered) exactly one tool-call event is emitted carrying the
buffered name and the parsed arguments, the buffer entry is removed and the
index is recorded as completed; and any later fragment for a completed index is
ignored without producing an event. -/
theorem claim_C2 (st : OAIState) (idx : Nat) :
    (∀ buf, amGet st.toolCallBuffers idx = some buf →
      tryParseJSONObject buf.args = none → tryEmitBufferedToolCall st idx = (st, []))
    ∧ (∀ buf nm fields, amGet st.toolCallBuffers idx = some buf →
        buf.name = some nm → nm.isEmpty = false →
        tryParseJSONObject buf.args = some fields →
        ∃ id st', tryEmitBufferedToolCall st idx = (st', [Part.toolCall id nm fields])
          ∧ id = buf.id.getD (genCallId st.freshCounter)
          ∧ st'.completedToolCallIndices.contains idx = true
          ∧ amGet st'.toolCallBuffers idx = none)
    ∧ (∀ tc : ToolCallFragment, tc.index.getD 0 = idx →
        st.completedToolCallIndices.contains idx = true →
        processToolCallFragment st tc = (st, [])) := by
  refine ⟨?_, ?_, ?_⟩
  · intro buf hget hinv
    cases hbn : buf.name with
    | none => simp [tryEmitBufferedToolCall, hget, hbn]
    | some nm =>
      by_cases hne : nm.isEmpty = true
      · simp [tryEmitBufferedToolCall, hget, hbn, hne]
      · simp [tryEmitBufferedToolCall, hget, hbn, hne, hinv]
  · intro buf nm fields hget hnm hne hok
    cases hbid : buf.id with
    | some i =>
      refine ⟨i,
        { st with toolCallBuffers := amDel st.toolCallBuffers idx,
                  completedToolCallIndices := setAdd st.completedToolCallIndices idx },
        ?_, by simp [hbid], setAdd_contains_self _ _, amGet_amDel_self _ _⟩
      simp [tryEmitBufferedToolCall, hget, hnm, hne, hok, hbid]
    | none =>
      refine ⟨genCallId st.freshCounter,
        { st with toolCallBuffers := amDel st.toolCallBuffers idx,
                  completedToolCallIndices := setAdd st.completedToolCallIndices idx,
                  freshCounter := st.freshCounter + 1 },
        ?_, by simp [hbid], setAdd_contains_self _ _, amGet_amDel_self _ _⟩
      simp [tryEmitBufferedToolCall, hget, hnm, hne, hok, hbid]
  · intro tc hidx hdone
    have hmem : idx ∈ st.completedToolCallIndices := by simpa using hdone
    simp [processToolCallFragment, hidx, hmem]

/-- C2 witness: the spec example — with the partial fragment buffered at index
0 no event is emitted; once the arguments read as the full object exactly one
event fires with name f and the parsed object; a late fragment for the
completed index 0 produces nothing. -/
theorem claim_C2_witness :
    tryEmitBufferedToolCall stInvalidBuf 0 = (stInvalidBuf, [])
    ∧ (∃ id st', tryEmitBufferedToolCall stSpecExample 0
          = (st', [Part.toolCall id "f" [("a", Json.num 1)]])
        ∧ id = bufSpecExample.id.getD (genCallId stSpecExample.freshCounter)
        ∧ st'.completedToolCallIndices.contains 0 = true
        ∧ amGet st'.toolCallBuffers 0 = none)
    ∧ processToolCallFragment stCompleted0 fragLate = (stCompleted0, []) := by
  refine ⟨?_, ?_, ?_⟩
  · exact (claim_C2 stInvalidBuf 0).1 { name := some "f", args := "\x7b\"a\":" } rfl rfl
  · exact (claim_C2 stSpecExample 0).2.1 bufSpecExample "f" [("a", Json.num 1)]
      rfl rfl rfl rfl
  · exact (claim_C2 stCompleted0 0).2.2 fragLate rfl rfl

/-! ## Thinking-buffer snapshot deduplication (C4) -/

theorem respBufferThinkingContent_thinkingBuffer (st : RespState) (t : String) :
    (respBufferThinkingContent st t).thinkingBuffer = st.thinkingBuffer ++ t := by
  by_cases h : respThinkingIdTruthy st = true <;> simp [respBufferThinkingContent, h]

theorem respBufferThinkingContent_reasoningSoFar (st : RespState) (t : String) :
    (respBufferThinkingContent st t).reasoningSoFar = st.reasoningSoFar := by
  by_cases h : respThinkingIdTruthy st = true <;> simp [respBufferThinkingContent, h]

/-- C4: for the previously seen cumulative snapshot S and newly arriving text
T, the responses-API reasoning buffer routes to the thinking accumulator
exactly the new suffix when T extends S (recording T as the snapshot), nothing
when T is a prefix of S, and the whole of T when neither is a prefix of the
other (extending the snapshot record by T) — so no overlapping snapshot text is
ever emitted twice. -/
theorem claim_C4 (st : RespState) (T : String) (hT : T.isEmpty = false) :
    (strStartsWith T st.reasoningSoFar = true →
      (bufferReasoningChunk st T).thinkingBuffer
          = st.thinkingBuffer ++ strDropChars T st.reasoningSoFar.length
        ∧ (bufferReasoningChunk st T).reasoningSoFar = T)
    ∧ (strStartsWith T st.reasoningSoFar = false →
        strStartsWith st.reasoningSoFar T = true →
        bufferReasoningChunk st T = st)
    ∧ (strStartsWith T st.reasoningSoFar = false →
        strStartsWith st.reasoningSoFar T = false →
        (bufferReasoningChunk st T).thinkingBuffer = st.thinkingBuffer ++ T
          ∧ (bufferReasoningChunk st T).reasoningSoFar = st.reasoningSoFar ++ T) := by
  refine ⟨?_, ?_, ?_⟩
  · intro hpre
    by_cases hd : (strDropChars T st.reasoningSoFar.length).isEmpty = true
    · constructor
      · simp [bufferReasoningChunk, hT, hpre, hd]
        have : strDropChars T st.reasoningSoFar.length = "" := by
          simpa [String.isEmpty_iff] using hd
        simp [this]
      · simp [bufferReasoningChunk, hT, hpre, hd]
    · constructor
      · simp [bufferReasoningChunk, hT, hpre, hd,
          respBufferThinkingContent_thinkingBuffer]
      · simp [bufferReasoningChunk, hT, hpre, hd,
          respBufferThinkingContent_reasoningSoFar]
  · intro hpre hpre2
    simp [bufferReasoningChunk, hT, hpre, hpre2]
    intro h
    exact absurd h (by decide)
  · intro hpre hpre2
    constructor
    · simp [bufferReasoningChunk, hT, hpre, hpre2,
        respBufferThinkingContent_thinkingBuffer]
    · simp [bufferReasoningChunk, hT, hpre, hpre2,
        respBufferThinkingContent_reasoningSoFar]

/-- C4 witness: after the snapshot Hello, the arrival of Hello world buffers
exactly the suffix, and after Hello world the late duplicate snapshot Hello
changes nothing — the overlap is never emitted twice. -/
theorem claim_C4_witness :
    ((bufferReasoningChunk rsHello "Hello world").thinkingBuffer
        = rsHello.thinkingBuffer ++ strDropChars "Hello world" rsHello.reasoningSoFar.length
      ∧ (bufferReasoningChunk rsHello "Hello world").reasoningSoFar = "Hello world")
    ∧ bufferReasoningChunk rsHelloWorld "Hello" = rsHelloWorld := by
  constructor
  · exact (claim_C4 rsHello "Hello world" (by decide)).1 (by decide)
  · exact (claim_C4 rsHelloWorld "Hello" (by decide)).2.1 (by decide) (by decide)

/-! ## Message-block converter and tool results on system turns (C7) -/

/-- C7 counterexample: a conversation whose system turn carries a tool result
converts with an empty diagnostics list — the tool result is dropped and
conversion continues, but no diagnostic is recorded, contradicting the claim
as stated. -/
theorem claim_C7_counterexample :
    (anthropicConvertMessages true convSystemToolResult).2.1 = []
    ∧ (anthropicConvertMessages true convSystemToolResult).1
        = [AMessage.mk Role.user [ABlock.text "hi"]]
    ∧ (anthropicConvertMessages true convSystemToolResult).2.2 = some "sys" :=
  ⟨rfl, rfl, rfl⟩

/-- C7 (amended): a tool result attached to a system-role turn is dropped — the
turn is converted to no output message at all and conversion of the remaining
messages continues — but no diagnostic is recorded for it; the converter
records its tool-results diagnostic only for non-user non-system (assistant)
turns. -/
theorem claim_C7 (incl : Bool) (counter : Nat) (sys : Option String)
    (m : ChatMessage) (rest : List ChatMessage) (hrole : m.role = Role.system) :
    anthropicStep incl counter sys m
        = ([], [],
           (if ¬ (joinedText m).isEmpty then some (joinedText m) else sys),
           (collectAnthToolUses counter m).2)
    ∧ anthropicConvertGo incl counter sys (m :: rest)
        = anthropicConvertGo incl (collectAnthToolUses counter m).2
            (if ¬ (joinedText m).isEmpty then some (joinedText m) else sys) rest
    ∧ (∀ m2 : ChatMessage, m2.role = Role.assistant → msgToolResults m2 ≠ [] →
        (anthropicStep incl counter sys m2).2.1 = [anthropicToolResultWarning]) := by
  refine ⟨?_, ?_, ?_⟩
  · simp [anthropicStep, hrole]
  · simp [anthropicConvertGo, anthropicStep, hrole]
  · intro m2 hrole2 htr
    simp [anthropicStep, hrole2, htr]

/-- C7 witness: the amended statement instantiated on the fixture conversation:
the system turn with a tool result converts to nothing with no diagnostic while
the rest converts normally, and an assistant turn with a tool result does
record the diagnostic. -/
theorem claim_C7_witness :
    anthropicStep true 0 none (ChatMessage.mk Role.system
        [MsgPart.toolResult "c1" "out", MsgPart.text "sys"])
      = ([], [], some "sys", 0)
    ∧ (anthropicStep true 0 none msgAssistantToolResult).2.1
        = [anthropicToolResultWarning] := by
  constructor
  · have h := (claim_C7 true 0 none (ChatMessage.mk Role.system
      [MsgPart.toolResult "c1" "out", MsgPart.text "sys"]) [] rfl).1
    have hjt : joinedText (ChatMessage.mk Role.system
        [MsgPart.toolResult "c1" "out", MsgPart.text "sys"]) = "sys" := rfl
    have hct : (collectAnthToolUses 0 (ChatMessage.mk Role.system
        [MsgPart.toolResult "c1" "out", MsgPart.text "sys"])).2 = 0 := rfl
    rw [hjt, hct] at h
    simpa using h
  · exact (claim_C7 true 0 none (ChatMessage.mk Role.system []) [] rfl).2.2
      msgAssistantToolResult rfl (by simp [msgToolResults, msgAssistantToolResult])

/-! ## Responses builder: last user item incomplete (C5) -/

theorem mem_ite_singleton {P : Prop} [Decidable P] {x a : α}
    (h : x ∈ (if P then [a] else [])) : x = a := by
  split at h <;> simp_all

theorem respAssistantItems_status (c1 : Nat) (jt jth : String)
    (toolCalls : List (String × String × String)) :
    ∀ it ∈ (respAssistantItems c1 jt jth toolCalls).1,
      respItemStatus it = RStatus.completed := by
  intro it hit
  simp only [respAssistantItems] at hit
  rcases List.mem_append.mp hit with h12 | hmap
  · rcases List.mem_append.mp h12 with h1m | h2m
    · have := mem_ite_singleton h1m; subst this; rfl
    · have := mem_ite_singleton h2m; subst this; rfl
  · rcases List.mem_map.mp hmap with ⟨tc, _, rfl⟩; rfl

theorem respOutputsFold_status (trs : List (String × String)) :
    ∀ acc : List RespItem × Nat,
      (∀ it ∈ acc.1, respItemStatus it = RStatus.completed) →
      ∀ it ∈ (respOutputsFold trs acc).1, respItemStatus it = RStatus.completed := by
  induction trs with
  | nil => intro acc hacc it hit; exact hacc it hit
  | cons tr rest ih =>
    intro acc hacc it hit
    simp only [respOutputsFold, List.foldl_cons] at hit
    by_cases h : tr.1.isEmpty = true
    · exact ih acc hacc it (by simpa [respOutputsFold, h] using hit)
    · refine ih _ ?_ it (by simpa [respOutputsFold, h] using hit)
      intro x hx
      rcases List.mem_append.mp hx with hx | hx
      · exact hacc x hx
      · simp at hx; subst hx; rfl

theorem respStep_status (includeReasoning : Bool) (counter : Nat) (sys : Option String)
    (m : ChatMessage) :
    ∀ it ∈ (respStep includeReasoning counter sys m).1,
      respItemStatus it = RStatus.completed := by
  intro it hit
  simp only [respStep, List.mem_append, List.append_assoc] at hit
  rcases hit with hA | hB | hC
  · by_cases hr : m.role = Role.assistant
    · rw [if_pos hr] at hA
      exact respAssistantItems_status _ _ _ _ it hA
    · rw [if_neg hr] at hA
      simp at hA
  · exact respOutputsFold_status _ _ (by simp) it hB
  · by_cases hr : m.role = Role.user
    · rw [if_pos hr] at hC
      by_cases hu : (userContentArray m).isEmpty = true
      · rw [if_pos hu] at hC; simp at hC
      · rw [if_neg hu] at hC
        simp at hC; subst hC; rfl
    · rw [if_neg hr] at hC
      simp at hC

theorem respConvertGo_status (includeReasoning : Bool) :
    ∀ (msgs : List ChatMessage) (counter : Nat) (sys : Option String),
      ∀ it ∈ (respConvertGo includeReasoning counter sys msgs).1,
        respItemStatus it = RStatus.completed := by
  intro msgs
  induction msgs with
  | nil => intro counter sys it hit; simp [respConvertGo] at hit
  | cons m rest ih =>
    intro counter sys it hit
    simp only [respConvertGo, List.mem_append] at hit
    rcases hit with h | h
    · exact respStep_status _ _ _ _ it h
    · exact ih _ _ it h

theorem respConvertGo_append (includeReasoning : Bool) :
    ∀ (xs : List ChatMessage) (counter : Nat) (sys : Option String) (m : ChatMessage),
      respConvertGo includeReasoning counter sys (xs ++ [m])
        = ((respConvertGo includeReasoning counter sys xs).1
            ++ (respStep includeReasoning
                  (respConvertGo includeReasoning counter sys xs).2.1
                  (respConvertGo includeReasoning counter sys xs).2.2 m).1,
           (respStep includeReasoning
              (respConvertGo includeReasoning counter sys xs).2.1
              (respConvertGo includeReasoning counter sys xs).2.2 m).2) := by
  intro xs
  induction xs with
  | nil => intro counter sys m; simp [respConvertGo]
  | cons x rest ih =>
    intro counter sys m
    simp only [List.cons_append, respConvertGo]
    simp [ih, List.append_assoc]

theorem respStep_user (includeReasoning : Bool) (counter : Nat) (sys : Option String)
    (m : ChatMessage) (hrole : m.role = Role.user) (hc : (userContentArray m).isEmpty = false) :
    (respStep includeReasoning counter sys m).1
      = (respOutputsFold (msgToolResults m) ([], (collectToolCalls counter m).2)).1
          ++ [RespItem.userMsg (userContentArray m) RStatus.completed] := by
  simp [respStep, hrole, hc]

theorem markLastIncomplete_concat_user (out : List RespItem) (c : List RespContent) :
    markLastIncomplete (out ++ [RespItem.userMsg c RStatus.completed])
      = out ++ [RespItem.userMsg c RStatus.incomplete] := by
  simp [markLastIncomplete, List.getLast?_concat, List.dropLast_concat]

/-- C5 counterexample: the structured-responses converter does not mark the
final item incomplete for every conversation ending in a user message. In the
fixture the last message is user-role, yet it carries only a tool result, so
its convertible content array is empty: no user item is pushed for it, the
emitted array ends with its function_call_output item, and that final item is
left with status completed, not incomplete. -/
theorem claim_C5_counterexample :
    convToolResultTail.getLast?
        = some (ChatMessage.mk Role.user [MsgPart.toolResult "c1" "out"])
    ∧ (ChatMessage.mk Role.user [MsgPart.toolResult "c1" "out"]).role = Role.user
    ∧ ((respConvertMessages true convToolResultTail).1).getLast?
        = some (RespItem.functionCallOutput "fco_0" "c1" "out" RStatus.completed)
    ∧ ((respConvertMessages true convToolResultTail).1).getLast?.map respItemStatus
        ≠ some RStatus.incomplete := by
  refine ⟨rfl, rfl, ?_, ?_⟩
  · rfl
  · intro h
    rw [show ((respConvertMessages true convToolResultTail).1).getLast?
        = some (RespItem.functionCallOutput "fco_0" "c1" "out" RStatus.completed) from rfl] at h
    exact absurd h (by simp [respItemStatus])

/-- C5 (amended): for every conversation whose final message is a user message
with non-empty convertible content, the emitted input array ends with that user
message item carrying status incomplete, and every other emitted item carries
status completed — no other item is ever marked incomplete. (A trailing
user message whose convertible content is empty, such as a tool-result-only
turn, pushes no user item, and the array's final item keeps status
completed.) -/
theorem claim_C5 (includeReasoning : Bool) (init : List ChatMessage) (m : ChatMessage)
    (hrole : m.role = Role.user) (hc : (userContentArray m).isEmpty = false) :
    ((respConvertMessages includeReasoning (init ++ [m])).1).getLast?
        = some (RespItem.userMsg (userContentArray m) RStatus.incomplete)
    ∧ ∀ it ∈ ((respConvertMessages includeReasoning (init ++ [m])).1).dropLast,
        respItemStatus it = RStatus.completed := by
  have happ := respConvertGo_append includeReasoning init 0 none m
  have hstep := respStep_user includeReasoning
    (respConvertGo includeReasoning 0 none init).2.1
    (respConvertGo includeReasoning 0 none init).2.2 m hrole hc
  have hcore : (respConvertGo includeReasoning 0 none (init ++ [m])).1
      = ((respConvertGo includeReasoning 0 none init).1
          ++ (respOutputsFold (msgToolResults m)
                ([], (collectToolCalls (respConvertGo includeReasoning 0 none init).2.1 m).2)).1)
        ++ [RespItem.userMsg (userContentArray m) RStatus.completed] := by
    rw [happ]
    simp only [hstep]
    simp [List.append_assoc]
  have hout : (respConvertMessages includeReasoning (init ++ [m])).1
      = ((respConvertGo includeReasoning 0 none init).1
          ++ (respOutputsFold (msgToolResults m)
                ([], (collectToolCalls (respConvertGo includeReasoning 0 none init).2.1 m).2)).1)
        ++ [RespItem.userMsg (userContentArray m) RStatus.incomplete] := by
    simp only [respConvertMessages]
    rw [hcore, markLastIncomplete_concat_user]
  constructor
  · rw [hout]
    exact List.getLast?_concat _
  · intro it hit
    rw [hout, List.dropLast_concat] at hit
    rcases List.mem_append.mp hit with h | h
    · exact respConvertGo_status includeReasoning init 0 none it h
    · exact respOutputsFold_status _ _ (by simp) it h

/-- C5 witness: the two-turn fixture conversation ending in a user message
converts to an array whose final item is the user message with status
incomplete while every other item is completed. -/
theorem claim_C5_witness :
    ((respConvertMessages true convTwoTurn).1).getLast?
        = some (RespItem.userMsg [RespContent.inputText "question"] RStatus.incomplete)
    ∧ ∀ it ∈ ((respConvertMessages true convTwoTurn).1).dropLast,
        respItemStatus it = RStatus.completed := by
  have h := claim_C5 true [ChatMessage.mk Role.assistant [MsgPart.text "hi there"]]
    (ChatMessage.mk Role.user [MsgPart.text "question"]) rfl (by decide)
  have huc : userContentArray (ChatMessage.mk Role.user [MsgPart.text "question"])
      = [RespContent.inputText "question"] := by decide
  rw [huc] at h
  exact h

/-! ## Preservation of the filler observation fields (claim C9 groundwork) -/

theorem fillerObsEq_refl (a : OAIState) : fillerObsEq a a := ⟨rfl, rfl, rfl⟩

theorem fillerObsEq_trans {a b c : OAIState} (h1 : fillerObsEq a b)
    (h2 : fillerObsEq b c) : fillerObsEq a c :=
  ⟨h1.1.trans h2.1, h1.2.1.trans h2.2.1, h1.2.2.trans h2.2.2⟩

theorem bufferThinkingContent_obs (st : OAIState) (t : String) :
    fillerObsEq (bufferThinkingContent st t) st := by
  by_cases h : thinkingIdTruthy st = true <;>
    simp [bufferThinkingContent, fillerObsEq, h]

theorem bufferAndCapture_obs (st : OAIState) (t : String) :
    fillerObsEq (bufferAndCapture st t) st := by
  have h := bufferThinkingContent_obs st t
  simpa [bufferAndCapture, fillerObsEq] using h

theorem flushThinkingBuffer_obs (st : OAIState) :
    fillerObsEq (flushThinkingBuffer st).1 st := by
  simp only [flushThinkingBuffer]
  split <;> simp [fillerObsEq]

theorem reportEndThinking_obs (st : OAIState) :
    fillerObsEq (reportEndThinking st).1 st := by
  by_cases h : thinkingIdTruthy st = true
  · have hf := flushThinkingBuffer_obs st
    simp only [reportEndThinking, h, if_pos]
    exact ⟨hf.1, hf.2.1, hf.2.2⟩
  · simp [reportEndThinking, h, fillerObsEq]

theorem processXmlLoop_obs :
    ∀ (fuel : Nat) (st : OAIState) (data : List Char) (parts : List Part) (em : Bool),
      fillerObsEq (processXmlLoop fuel st data parts em).1 st := by
  intro fuel
  induction fuel with
  | zero => intro st data parts em; exact fillerObsEq_refl st
  | succ f ih =>
    intro st data parts em
    by_cases hd : data.isEmpty = true
    · simp [processXmlLoop, hd, fillerObsEq]
    · by_cases hx : st.xmlThinkActive = false
      · cases hfind : listIndexOf thinkStartTag.toList data with
        | none =>
          simp only [processXmlLoop, hfind]
          simp [hd, hx, fillerObsEq]
        | some i =>
          have h2 := ih ({ st with xmlThinkActive := true, currentThinkingId := some (genThinkingId st.freshCounter), freshCounter := st.freshCounter + 1 } : OAIState) (data.drop (i + thinkStartTag.length)) parts em
          simp only [processXmlLoop, hfind]
          simp only [fillerObsEq] at h2 ⊢
          simpa [hd, hx] using h2
      · cases hfind : listIndexOf thinkEndTag.toList data with
        | none =>
          simp only [processXmlLoop, hfind]
          by_cases hc : (jsTrim (String.mk data)).isEmpty = true <;>
            simp [hd, hx, hc, fillerObsEq]
        | some e =>
          by_cases hc : (String.mk (data.take e)).isEmpty = true
          · have h2 := ih ({ st with xmlThinkActive := false, currentThinkingId := none } : OAIState) (data.drop (e + thinkEndTag.length)) parts em
            simp only [processXmlLoop, hfind]
            simp only [fillerObsEq] at h2 ⊢
            simpa [hd, hx, hc] using h2
          · have h2 := ih ({ st with capturedReasoning := st.capturedReasoning ++ String.mk (data.take e), xmlThinkActive := false, currentThinkingId := none } : OAIState)
              (data.drop (e + thinkEndTag.length))
              (parts ++ [Part.thinking (String.mk (data.take e))
                (idOrNone st.currentThinkingId)]) true
            simp only [processXmlLoop, hfind]
            simp only [fillerObsEq] at h2 ⊢
            simpa [hd, hx, hc] using h2

theorem processXmlThinkBlocks_obs (st : OAIState) (input : String) :
    fillerObsEq (processXmlThinkBlocks st input).1 st := by
  by_cases h : (st.xmlThinkDetectionAttempted ∧ st.xmlThinkActive = false)
  · simp [processXmlThinkBlocks, h, fillerObsEq]
  · simp only [processXmlThinkBlocks, if_neg h]
    exact processXmlLoop_obs _ st input.toList [] false

theorem tryEmitBufferedToolCall_obs (st : OAIState) (idx : Nat) :
    fillerObsEq (tryEmitBufferedToolCall st idx).1 st := by
  cases hg : amGet st.toolCallBuffers idx with
  | none => simp [tryEmitBufferedToolCall, hg, fillerObsEq]
  | some buf =>
    cases hn : buf.name with
    | none => simp [tryEmitBufferedToolCall, hg, hn, fillerObsEq]
    | some nm =>
      by_cases hne : nm.isEmpty = true
      · simp [tryEmitBufferedToolCall, hg, hn, hne, fillerObsEq]
      · cases hp : tryParseJSONObject buf.args with
        | none => simp [tryEmitBufferedToolCall, hg, hn, hne, hp, fillerObsEq]
        | some fields =>
          cases hid : buf.id with
          | some i => simp [tryEmitBufferedToolCall, hg, hn, hne, hp, hid, fillerObsEq]
          | none => simp [tryEmitBufferedToolCall, hg, hn, hne, hp, hid, fillerObsEq]

theorem processToolCallFragment_obs (st : OAIState) (tc : ToolCallFragment) :
    fillerObsEq (processToolCallFragment st tc).1 st := by
  by_cases hdone : st.completedToolCallIndices.contains (tc.index.getD 0) = true
  · have hmem : tc.index.getD 0 ∈ st.completedToolCallIndices := by simpa using hdone
    simp [processToolCallFragment, hmem, fillerObsEq]
  · cases hid : tc.id with
    | some i =>
      by_cases hi : i.isEmpty = true
      · simp only [processToolCallFragment, hdone, hid, hi]
        refine fillerObsEq_trans (tryEmitBufferedToolCall_obs _ _) ?_
        simp [fillerObsEq]
      · simp only [processToolCallFragment, hdone, hid, hi]
        refine fillerObsEq_trans (tryEmitBufferedToolCall_obs _ _) ?_
        simp [fillerObsEq]
    | none =>
      simp only [processToolCallFragment, hdone, hid]
      refine fillerObsEq_trans (tryEmitBufferedToolCall_obs _ _) ?_
      simp [fillerObsEq]

theorem processFragmentsFold_obs (tcs : List ToolCallFragment) :
    ∀ (st : OAIState) (acc : List Part),
      fillerObsEq (tcs.foldl
        (fun acc tc =>
          let r := processToolCallFragment acc.1 tc
          (r.1, acc.2 ++ r.2)) (st, acc)).1 st := by
  induction tcs with
  | nil => intro st acc; exact fillerObsEq_refl st
  | cons tc rest ih =>
    intro st acc
    simp only [List.foldl_cons]
    exact fillerObsEq_trans (ih _ _) (processToolCallFragment_obs st tc)

theorem processFragments_obs (st : OAIState) (tcs : List ToolCallFragment) :
    fillerObsEq (processFragments st tcs).1 st :=
  processFragmentsFold_obs tcs st []

theorem flushLoop_obs (b : Bool) :
    ∀ (entries : List (Nat × ToolCallBuffer)) (st : OAIState) (parts : List Part),
      fillerObsEq (flushLoop b entries st parts).2.1 st := by
  intro entries
  induction entries with
  | nil => intro st parts; exact fillerObsEq_refl st
  | cons e rest ih =>
    intro st parts
    rcases e with ⟨idx, buf⟩
    cases hp : tryParseJSONObject buf.args with
    | none =>
      by_cases hb : b = true
      · simp [flushLoop, hp, hb, fillerObsEq]
      · simp only [flushLoop, hp]
        have hb2 : b = false := by simpa using hb
        subst hb2
        simpa using ih st parts
    | some fields =>
      cases hid : buf.id with
      | some i =>
        simp only [flushLoop, hp, hid]
        refine fillerObsEq_trans (ih _ _) ?_
        simp [fillerObsEq]
      | none =>
        simp only [flushLoop, hp, hid]
        refine fillerObsEq_trans (ih _ _) ?_
        simp [fillerObsEq]

theorem flushToolCallBuffers_obs (st : OAIState) (b : Bool) :
    fillerObsEq (flushToolCallBuffers st b).2.1 st := by
  by_cases h : st.toolCallBuffers.isEmpty = true
  · simp [flushToolCallBuffers, h, fillerObsEq]
  · simp only [flushToolCallBuffers, h]
    simpa using flushLoop_obs b st.toolCallBuffers st []

theorem thinkingFallbackStep_obs (s : OAIState) (em : Bool) (mt : Option String) :
    fillerObsEq (thinkingFallbackStep s em mt).1 s := by
  cases mt with
  | none => exact fillerObsEq_refl s
  | some t =>
    by_cases ht : t.isEmpty = true
    · simp [thinkingFallbackStep, ht, fillerObsEq]
    · simpa [thinkingFallbackStep, ht] using bufferAndCapture_obs s t

theorem detailsFoldAux_obs (ds : List ReasoningDetail) :
    ∀ (acc : OAIState × Bool),
      fillerObsEq (ds.foldl
        (fun (acc : OAIState × Bool) d =>
          let t := detailText d
          if ¬ t.isEmpty then (bufferAndCapture acc.1 t, true) else acc) acc).1 acc.1 := by
  induction ds with
  | nil => intro acc; exact fillerObsEq_refl acc.1
  | cons d rest ih =>
    intro acc
    simp only [List.foldl_cons]
    by_cases ht : (detailText d).isEmpty = true
    · simpa [ht] using ih acc
    · refine fillerObsEq_trans ?_ (bufferAndCapture_obs acc.1 (detailText d))
      simpa [ht] using ih (bufferAndCapture acc.1 (detailText d), true)

theorem processDetailsFold_obs (st : OAIState) (ds : List ReasoningDetail) :
    fillerObsEq (processDetailsFold st ds).1 st := by
  simp only [processDetailsFold]
  simpa using detailsFoldAux_obs (sortByKey (fun d => (detailIndex d).getD 0) ds) (st, false)

theorem processThinkingSteps_obs (st : OAIState) (choice : ChunkChoice) :
    fillerObsEq (processThinkingSteps st choice).1 st := by
  simp only [processThinkingSteps]
  cases hD : (choice.delta.bind fun d => d.reasoning_details) <|> choice.reasoning_details with
  | none => exact thinkingFallbackStep_obs st false _
  | some ds =>
    by_cases hl : ds.length > 0
    · simp only [if_pos hl]
      exact processDetailsFold_obs st ds
    · simp only [if_neg hl]
      exact thinkingFallbackStep_obs st false _

/-- processContentStep never touches the filler counter or the begin-tool-calls
flag, and only ever raises the assistant-text flag. -/
theorem processContentStep_filler (st : OAIState) (content : Option String) (em : Bool) :
    (processContentStep st content em).1.fillerCount = st.fillerCount
      ∧ (processContentStep st content em).1.emittedBeginToolCallsHint
          = st.emittedBeginToolCallsHint
      ∧ (st.hasEmittedAssistantText = true
          → (processContentStep st content em).1.hasEmittedAssistantText = true) := by
  cases content with
  | none => exact ⟨rfl, rfl, fun h => h⟩
  | some c =>
    by_cases hc : c.isEmpty = true
    · have hres : (processContentStep st (some c) em).1 = st := by
        simp [processContentStep, hc]
      rw [hres]
      exact ⟨rfl, rfl, fun h => h⟩
    · have hxobs := processXmlThinkBlocks_obs st c
      rcases hxml : processXmlThinkBlocks st c with ⟨stx, xparts, xAny⟩
      rw [hxml] at hxobs
      have heobs := reportEndThinking_obs stx
      rcases hend : reportEndThinking stx with ⟨ste, eparts⟩
      rw [hend] at heobs
      rcases htxt : processTextContent c with ⟨tparts, emittedText, tAny⟩
      cases xAny with
      | true =>
        have hres : (processContentStep st (some c) em).1 = stx := by
          simp [processContentStep, hxml, hc]
        rw [hres]
        exact ⟨hxobs.1, hxobs.2.1, fun h => hxobs.2.2.trans h⟩
      | false =>
        cases emittedText with
        | true =>
          have hres : (processContentStep st (some c) em).1
              = { ste with hasEmittedAssistantText := true } := by
            simp [processContentStep, hxml, hend, htxt, hc]
          rw [hres]
          exact ⟨heobs.1.trans hxobs.1, heobs.2.1.trans hxobs.2.1, fun _ => rfl⟩
        | false =>
          have hres : (processContentStep st (some c) em).1 = ste := by
            simp [processContentStep, hxml, hend, htxt, hc]
          rw [hres]
          exact ⟨heobs.1.trans hxobs.1, heobs.2.1.trans hxobs.2.1,
            fun h => (heobs.2.2.trans hxobs.2.2).trans h⟩

/-- With no content (or empty content) the content step is the identity. -/
theorem processContentStep_empty (st : OAIState) (em : Bool) (content : Option String)
    (h : content = none ∨ ∃ c, content = some c ∧ c.isEmpty = true) :
    (processContentStep st content em).1 = st := by
  rcases h with h | ⟨c, hc, hce⟩
  · rw [h]
    rfl
  · rw [hc]
    simp [processContentStep, hce]

/-- processToolCallsStep preserves the assistant-text flag and either leaves
the filler counter and flag unchanged, or — exactly when the flag was unset,
assistant text had been emitted and the fragment list is non-empty — emits the
one-space filler once: counter up by one, flag raised. -/
theorem processToolCallsStep_filler (st : OAIState) (tcs : Option (List ToolCallFragment)) :
    (processToolCallsStep st tcs).1.hasEmittedAssistantText = st.hasEmittedAssistantText
      ∧ (((processToolCallsStep st tcs).1.fillerCount = st.fillerCount
            ∧ (processToolCallsStep st tcs).1.emittedBeginToolCallsHint
                = st.emittedBeginToolCallsHint)
          ∨ (st.emittedBeginToolCallsHint = false ∧ st.hasEmittedAssistantText = true
            ∧ (processToolCallsStep st tcs).1.fillerCount = st.fillerCount + 1
            ∧ (processToolCallsStep st tcs).1.emittedBeginToolCallsHint = true)) := by
  cases tcs with
  | none => exact ⟨rfl, Or.inl ⟨rfl, rfl⟩⟩
  | some l =>
    have heobs := reportEndThinking_obs st
    rcases hend : reportEndThinking st with ⟨ste, eparts⟩
    rw [hend] at heobs
    have h1 : ste.fillerCount = st.fillerCount := heobs.1
    have h2 : ste.emittedBeginToolCallsHint = st.emittedBeginToolCallsHint := heobs.2.1
    have h3 : ste.hasEmittedAssistantText = st.hasEmittedAssistantText := heobs.2.2
    by_cases hfire : (ste.emittedBeginToolCallsHint = false
        ∧ ste.hasEmittedAssistantText = true ∧ l.length > 0)
    · have hres : (processToolCallsStep st (some l)).1
          = (processFragments { ste with emittedBeginToolCallsHint := true, fillerCount := ste.fillerCount + 1 } l).1 := by
        simp only [processToolCallsStep, hend]
        rw [if_pos hfire]
      have hfobs := processFragments_obs ({ ste with emittedBeginToolCallsHint := true, fillerCount := ste.fillerCount + 1 }) l
      rw [hres]
      refine ⟨?_, Or.inr ⟨h2 ▸ hfire.1, h3 ▸ hfire.2.1, ?_, ?_⟩⟩
      · exact hfobs.2.2.trans h3
      · rw [hfobs.1]
        show ste.fillerCount + 1 = st.fillerCount + 1
        rw [h1]
      · rw [hfobs.2.1]
    · have hres : (processToolCallsStep st (some l)).1 = (processFragments ste l).1 := by
        simp only [processToolCallsStep, hend]
        rw [if_neg hfire]
      have hfobs := processFragments_obs ste l
      rw [hres]
      exact ⟨hfobs.2.2.trans h3, Or.inl ⟨hfobs.1.trans h1, hfobs.2.1.trans h2⟩⟩

/-- With no fragments (absent or empty tool_calls) the tool-calls step leaves
all three filler observation fields unchanged. -/
theorem processToolCallsStep_noTools (st : OAIState) (tcs : Option (List ToolCallFragment))
    (h : tcs = none ∨ tcs = some []) :
    fillerObsEq (processToolCallsStep st tcs).1 st := by
  rcases h with h | h
  · rw [h]; exact fillerObsEq_refl st
  · rw [h]
    have heobs := reportEndThinking_obs st
    rcases hend : reportEndThinking st with ⟨ste, eparts⟩
    rw [hend] at heobs
    have hres : (processToolCallsStep st (some [])).1 = (processFragments ste []).1 := by
      simp [processToolCallsStep, hend]
    rw [hres]
    exact fillerObsEq_trans (processFragments_obs ste []) heobs

/-- processDelta control over the filler fields: the assistant-text flag is
monotone, and the counter/flag pair either is unchanged or records exactly one
filler emission backed by emitted assistant text. -/
theorem processDelta_filler (st : OAIState) (chunk : StreamChunk) :
    (st.hasEmittedAssistantText = true
        → (processDelta st chunk).2.1.hasEmittedAssistantText = true)
      ∧ (((processDelta st chunk).2.1.fillerCount = st.fillerCount
            ∧ (processDelta st chunk).2.1.emittedBeginToolCallsHint
                = st.emittedBeginToolCallsHint)
          ∨ (st.emittedBeginToolCallsHint = false
            ∧ (processDelta st chunk).2.1.fillerCount = st.fillerCount + 1
            ∧ (processDelta st chunk).2.1.emittedBeginToolCallsHint = true
            ∧ (processDelta st chunk).2.1.hasEmittedAssistantText = true)) := by
  cases hch : chunk.choice with
  | none =>
    have hres : (processDelta st chunk).2.1 = st := by
      simp [processDelta, hch]
    rw [hres]
    exact ⟨fun h => h, Or.inl ⟨rfl, rfl⟩⟩
  | some choice =>
    have hth := processThinkingSteps_obs st choice
    rcases hts : processThinkingSteps st choice with ⟨st2, em2⟩
    rw [hts] at hth
    have hcs := processContentStep_filler st2 (choice.delta.bind fun d => d.content) em2
    rcases hc : processContentStep st2 (choice.delta.bind fun d => d.content) em2
      with ⟨st3, parts3, em3⟩
    rw [hc] at hcs
    have htc := processToolCallsStep_filler st3 (choice.delta.bind fun d => d.tool_calls)
    rcases ht : processToolCallsStep st3 (choice.delta.bind fun d => d.tool_calls)
      with ⟨st4, parts4⟩
    rw [ht] at htc
    have hobs5 : fillerObsEq (processDelta st chunk).2.1 st4 := by
      by_cases hfin : (choice.finish_reason = some "tool_calls"
          ∨ choice.finish_reason = some "stop")
      · have hfl := flushToolCallBuffers_obs st4 true
        have hres : (processDelta st chunk).2.1 = (flushToolCallBuffers st4 true).2.1 := by
          simp [processDelta, hch, hts, hc, ht, hfin]
        rw [hres]
        exact hfl
      · have hres : (processDelta st chunk).2.1 = st4 := by
          simp [processDelta, hch, hts, hc, ht, hfin]
        rw [hres]
        exact fillerObsEq_refl st4
    constructor
    · intro hst
      have hst2 : st2.hasEmittedAssistantText = true := hth.2.2.trans hst
      have hst3 : st3.hasEmittedAssistantText = true := hcs.2.2 hst2
      have hst4 : st4.hasEmittedAssistantText = true := htc.1.trans hst3
      exact hobs5.2.2.trans hst4
    · rcases htc.2 with ⟨e1, e2⟩ | ⟨hf0, hftxt, e1, e2⟩
      · exact Or.inl ⟨(hobs5.1.trans e1).trans (hcs.1.trans hth.1),
          (hobs5.2.1.trans e2).trans (hcs.2.1.trans hth.2.1)⟩
      · refine Or.inr ⟨?_, ?_, ?_, ?_⟩
        · rw [← hth.2.1, ← hcs.2.1]
          exact hf0
        · rw [hobs5.1, e1, hcs.1, hth.1]
        · rw [hobs5.2.1, e2]
        · rw [hobs5.2.2, htc.1, hftxt]

/-- A chunk without tool-call fragments leaves the filler counter and the
begin-tool-calls flag unchanged. -/
theorem processDelta_noTools (st : OAIState) (chunk : StreamChunk)
    (h : chunkHasToolCalls chunk = false) :
    (processDelta st chunk).2.1.fillerCount = st.fillerCount
      ∧ (processDelta st chunk).2.1.emittedBeginToolCallsHint
          = st.emittedBeginToolCallsHint := by
  cases hch : chunk.choice with
  | none =>
    have hres : (processDelta st chunk).2.1 = st := by
      simp [processDelta, hch]
    rw [hres]
    exact ⟨rfl, rfl⟩
  | some choice =>
    have hopt : choice.delta.bind (fun d => d.tool_calls) = none
        ∨ choice.delta.bind (fun d => d.tool_calls) = some [] := by
      cases hd : choice.delta with
      | none => left; simp [hd]
      | some d =>
        cases hcalls : d.tool_calls with
        | none => left; simp [hd, hcalls]
        | some tcs =>
          right
          have hne : tcs.isEmpty = true := by
            simpa [chunkHasToolCalls, hch, hd, hcalls] using h
          have htcs : tcs = [] := by simpa using hne
          simp [hd, hcalls, htcs]
    have hth := processThinkingSteps_obs st choice
    rcases hts : processThinkingSteps st choice with ⟨st2, em2⟩
    rw [hts] at hth
    have hcs := processContentStep_filler st2 (choice.delta.bind fun d => d.content) em2
    rcases hc : processContentStep st2 (choice.delta.bind fun d => d.content) em2
      with ⟨st3, parts3, em3⟩
    rw [hc] at hcs
    have htc := processToolCallsStep_noTools st3 (choice.delta.bind fun d => d.tool_calls) hopt
    rcases ht : processToolCallsStep st3 (choice.delta.bind fun d => d.tool_calls)
      with ⟨st4, parts4⟩
    rw [ht] at htc
    have hobs5 : fillerObsEq (processDelta st chunk).2.1 st4 := by
      by_cases hfin : (choice.finish_reason = some "tool_calls"
          ∨ choice.finish_reason = some "stop")
      · have hfl := flushToolCallBuffers_obs st4 true
        have hres : (processDelta st chunk).2.1 = (flushToolCallBuffers st4 true).2.1 := by
          simp [processDelta, hch, hts, hc, ht, hfin]
        rw [hres]
        exact hfl
      · have hres : (processDelta st chunk).2.1 = st4 := by
          simp [processDelta, hch, hts, hc, ht, hfin]
        rw [hres]
        exact fillerObsEq_refl st4
    exact ⟨(hobs5.1.trans htc.1).trans (hcs.1.trans hth.1),
      (hobs5.2.1.trans htc.2.1).trans (hcs.2.1.trans hth.2.1)⟩

/-- A chunk without text content cannot raise the assistant-text flag, so in a
stream where no text was ever emitted it cannot emit the filler either. -/
theorem processDelta_noContent (st : OAIState) (chunk : StreamChunk)
    (h : chunkHasContent chunk = false) (ht0 : st.hasEmittedAssistantText = false) :
    (processDelta st chunk).2.1.hasEmittedAssistantText = false
      ∧ (processDelta st chunk).2.1.fillerCount = st.fillerCount := by
  cases hch : chunk.choice with
  | none =>
    have hres : (processDelta st chunk).2.1 = st := by
      simp [processDelta, hch]
    rw [hres]
    exact ⟨ht0, rfl⟩
  | some choice =>
    have hopt : choice.delta.bind (fun d => d.content) = none
        ∨ ∃ c, choice.delta.bind (fun d => d.content) = some c ∧ c.isEmpty = true := by
      cases hd : choice.delta with
      | none => left; simp [hd]
      | some d =>
        cases hcont : d.content with
        | none => left; simp [hd, hcont]
        | some c =>
          right
          refine ⟨c, by simp [hd, hcont], ?_⟩
          simpa [chunkHasContent, hch, hd, hcont] using h
    have hth := processThinkingSteps_obs st choice
    rcases hts : processThinkingSteps st choice with ⟨st2, em2⟩
    rw [hts] at hth
    have hcs := processContentStep_empty st2 em2 (choice.delta.bind fun d => d.content) hopt
    rcases hc : processContentStep st2 (choice.delta.bind fun d => d.content) em2
      with ⟨st3, parts3, em3⟩
    rw [hc] at hcs
    have hcs3 : st3 = st2 := hcs
    have hst3 : st3.hasEmittedAssistantText = false := by
      rw [hcs3]
      exact hth.2.2.trans ht0
    have hst3c : st3.fillerCount = st.fillerCount := by
      rw [hcs3]
      exact hth.1
    have htc := processToolCallsStep_filler st3 (choice.delta.bind fun d => d.tool_calls)
    rcases ht : processToolCallsStep st3 (choice.delta.bind fun d => d.tool_calls)
      with ⟨st4, parts4⟩
    rw [ht] at htc
    have hst4 : st4.hasEmittedAssistantText = false := htc.1.trans hst3
    have hst4c : st4.fillerCount = st3.fillerCount := by
      rcases htc.2 with ⟨e1, _⟩ | ⟨_, hftxt, _, _⟩
      · exact e1
      · rw [hst3] at hftxt
        exact absurd hftxt (by simp)
    have hobs5 : fillerObsEq (processDelta st chunk).2.1 st4 := by
      by_cases hfin : (choice.finish_reason = some "tool_calls"
          ∨ choice.finish_reason = some "stop")
      · have hfl := flushToolCallBuffers_obs st4 true
        have hres : (processDelta st chunk).2.1 = (flushToolCallBuffers st4 true).2.1 := by
          simp [processDelta, hch, hts, hc, ht, hfin]
        rw [hres]
        exact hfl
      · have hres : (processDelta st chunk).2.1 = st4 := by
          simp [processDelta, hch, hts, hc, ht, hfin]
        rw [hres]
        exact fillerObsEq_refl st4
    exact ⟨hobs5.2.2.trans hst4, hobs5.1.trans (hst4c.trans hst3c)⟩

/-- Per-payload version of the filler control: the text flag is monotone and
the counter/flag pair is unchanged or records exactly one gated emission. -/
theorem processPayload_filler (st : OAIState) (p : Payload) :
    (st.hasEmittedAssistantText = true
        → (processPayload st p).1.hasEmittedAssistantText = true)
      ∧ (((processPayload st p).1.fillerCount = st.fillerCount
            ∧ (processPayload st p).1.emittedBeginToolCallsHint
                = st.emittedBeginToolCallsHint)
          ∨ (st.emittedBeginToolCallsHint = false
            ∧ (processPayload st p).1.fillerCount = st.fillerCount + 1
            ∧ (processPayload st p).1.emittedBeginToolCallsHint = true
            ∧ (processPayload st p).1.hasEmittedAssistantText = true)) := by
  cases p with
  | skip => exact ⟨fun h => h, Or.inl ⟨rfl, rfl⟩⟩
  | doneMarker =>
    have hfl := flushToolCallBuffers_obs st false
    exact ⟨fun h => hfl.2.2.trans h, Or.inl ⟨hfl.1, hfl.2.1⟩⟩
  | chunk c => exact processDelta_filler st c

theorem processPayload_noTools (st : OAIState) (p : Payload)
    (h : payloadHasToolCalls p = false) :
    (processPayload st p).1.fillerCount = st.fillerCount
      ∧ (processPayload st p).1.emittedBeginToolCallsHint
          = st.emittedBeginToolCallsHint := by
  cases p with
  | skip => exact ⟨rfl, rfl⟩
  | doneMarker =>
    have hfl := flushToolCallBuffers_obs st false
    exact ⟨hfl.1, hfl.2.1⟩
  | chunk c => exact processDelta_noTools st c (by simpa [payloadHasToolCalls] using h)

theorem processPayload_noContent (st : OAIState) (p : Payload)
    (h : payloadHasContent p = false) (ht0 : st.hasEmittedAssistantText = false) :
    (processPayload st p).1.hasEmittedAssistantText = false
      ∧ (processPayload st p).1.fillerCount = st.fillerCount := by
  cases p with
  | skip => exact ⟨ht0, rfl⟩
  | doneMarker =>
    have hfl := flushToolCallBuffers_obs st false
    exact ⟨hfl.2.2.trans ht0, hfl.1⟩
  | chunk c => exact processDelta_noContent st c (by simpa [payloadHasContent] using h) ht0

theorem runPayloadsState_cons (st : OAIState) (p : Payload) (rest : List Payload) :
    runPayloadsState st (p :: rest) = runPayloadsState (processPayload st p).1 rest := rfl

/-- The per-stream filler invariant of the line loop: the counter never
exceeds one, an unset flag means no emission yet, and a positive counter
implies assistant text was emitted. -/
theorem runPayloadsState_inv (ps : List Payload) :
    ∀ st : OAIState,
      st.fillerCount ≤ 1
      → (st.emittedBeginToolCallsHint = false → st.fillerCount = 0)
      → (1 ≤ st.fillerCount → st.hasEmittedAssistantText = true)
      → (runPayloadsState st ps).fillerCount ≤ 1
        ∧ ((runPayloadsState st ps).emittedBeginToolCallsHint = false
            → (runPayloadsState st ps).fillerCount = 0)
        ∧ (1 ≤ (runPayloadsState st ps).fillerCount
            → (runPayloadsState st ps).hasEmittedAssistantText = true) := by
  induction ps with
  | nil => intro st h1 h2 h3; exact ⟨h1, h2, h3⟩
  | cons p rest ih =>
    intro st h1 h2 h3
    rw [runPayloadsState_cons]
    have hp := processPayload_filler st p
    rcases hp.2 with ⟨e1, e2⟩ | ⟨hf0, e1, e2, e3⟩
    · refine ih _ ?_ ?_ ?_
      · rw [e1]; exact h1
      · intro hh; rw [e1]; exact h2 (e2 ▸ hh)
      · intro hh
        exact hp.1 (h3 (by rw [← e1]; exact hh))
    · refine ih _ ?_ ?_ ?_
      · rw [e1, h2 hf0]
      · intro hh
        rw [e2] at hh
        exact absurd hh (by simp)
      · intro _
        exact e3

theorem runPayloadsState_noTools (ps : List Payload) :
    ∀ st : OAIState, (∀ p ∈ ps, payloadHasToolCalls p = false)
      → (runPayloadsState st ps).fillerCount = st.fillerCount
        ∧ (runPayloadsState st ps).emittedBeginToolCallsHint
            = st.emittedBeginToolCallsHint := by
  induction ps with
  | nil => intro st _; exact ⟨rfl, rfl⟩
  | cons p rest ih =>
    intro st h
    rw [runPayloadsState_cons]
    have hp := processPayload_noTools st p (h p (List.mem_cons_self p rest))
    have hr := ih (processPayload st p).1 (fun q hq => h q (List.mem_cons_of_mem p hq))
    exact ⟨hr.1.trans hp.1, hr.2.trans hp.2⟩

theorem runPayloadsState_noContent (ps : List Payload) :
    ∀ st : OAIState, (∀ p ∈ ps, payloadHasContent p = false)
      → st.hasEmittedAssistantText = false
      → (runPayloadsState st ps).hasEmittedAssistantText = false
        ∧ (runPayloadsState st ps).fillerCount = st.fillerCount := by
  induction ps with
  | nil => intro st _ ht; exact ⟨ht, rfl⟩
  | cons p rest ih =>
    intro st h ht
    rw [runPayloadsState_cons]
    have hp := processPayload_noContent st p (h p (List.mem_cons_self p rest)) ht
    have hr := ih (processPayload st p).1 (fun q hq => h q (List.mem_cons_of_mem p hq)) hp.1
    exact ⟨hr.1, hr.2.trans hp.2⟩

theorem runPayloadsAux_fst (ps : List Payload) :
    ∀ (st : OAIState) (acc : List Part),
      (ps.foldl (fun acc p =>
        let r := processPayload acc.1 p
        (r.1, acc.2 ++ r.2)) (st, acc)).1 = runPayloadsState st ps := by
  induction ps with
  | nil => intro st acc; rfl
  | cons p rest ih =>
    intro st acc
    rw [runPayloadsState_cons]
    simp only [List.foldl_cons]
    exact ih _ _

theorem runStream_state (ps : List Payload) :
    (runStream ps).1 = (reportEndThinking (runPayloadsState initialOAIState ps)).1 := by
  have h1 : (runStream ps).1 = (reportEndThinking (runPayloads initialOAIState ps).1).1 := by
    rcases hr : runPayloads initialOAIState ps with ⟨st, parts⟩
    rcases he : reportEndThinking st with ⟨st2, eparts⟩
    simp [runStream, hr, he]
  rw [h1]
  have h2 : (runPayloads initialOAIState ps).1 = runPayloadsState initialOAIState ps := by
    simp only [runPayloads]
    exact runPayloadsAux_fst ps initialOAIState []
  rw [h2]

/-! ## Association-map lookup lemmas for the request-body pipeline -/

theorem find?_cons_pos (p : α → Bool) (a : α) (l : List α) (h : p a = true) :
    (a :: l).find? p = some a := by
  simp [List.find?, h]

theorem find?_cons_neg (p : α → Bool) (a : α) (l : List α) (h : p a = false) :
    (a :: l).find? p = l.find? p := by
  simp [List.find?, h]

theorem find?_append_none [BEq κ] (l1 l2 : List (κ × ν)) (p : κ × ν → Bool)
    (h : l1.find? p = none) : (l1 ++ l2).find? p = l2.find? p := by
  induction l1 with
  | nil => simp
  | cons e rest ih =>
    cases he : p e with
    | true => rw [find?_cons_pos p e rest he] at h; cases h
    | false =>
      rw [find?_cons_neg p e rest he] at h
      rw [List.cons_append, find?_cons_neg p e (rest ++ l2) he]
      exact ih h

theorem find?_append_some [BEq κ] (l1 l2 : List (κ × ν)) (p : κ × ν → Bool) (x : κ × ν)
    (h : l1.find? p = some x) : (l1 ++ l2).find? p = some x := by
  induction l1 with
  | nil => simp at h
  | cons e rest ih =>
    cases he : p e with
    | true =>
      rw [find?_cons_pos p e rest he] at h
      rw [List.cons_append, find?_cons_pos p e (rest ++ l2) he]
      exact h
    | false =>
      rw [find?_cons_neg p e rest he] at h
      rw [List.cons_append, find?_cons_neg p e (rest ++ l2) he]
      exact ih h

theorem find?_map_update [BEq κ] [LawfulBEq κ] (k : κ) (v : ν) :
    ∀ m2 : List (κ × ν), (m2.find? (fun e => e.1 == k)).isSome = true →
      ((m2.map (fun e => if e.1 == k then (k, v) else e)).find? (fun e => e.1 == k))
        = some (k, v) := by
  intro m2
  induction m2 with
  | nil => intro hh; simp at hh
  | cons e rest ih =>
    intro hh
    cases he : (e.1 == k) with
    | true =>
      simp only [List.map_cons, if_pos he]
      rw [find?_cons_pos (fun e => e.1 == k) (k, v) _ (by simp)]
    | false =>
      simp only [List.map_cons, if_neg (by simp [he] : ¬ ((e.1 == k) = true))]
      rw [find?_cons_neg (fun e => e.1 == k) e rest he] at hh
      rw [find?_cons_neg (fun e => e.1 == k) e _ he]
      exact ih hh

theorem find?_map_update_ne [BEq κ] [LawfulBEq κ] (k k2 : κ) (v : ν) (h : k2 ≠ k) :
    ∀ m2 : List (κ × ν),
      ((m2.map (fun e => if e.1 == k then (k, v) else e)).find? (fun e => e.1 == k2))
        = m2.find? (fun e => e.1 == k2) := by
  intro m2
  have hkk2 : ((k == k2) : Bool) = false := by
    simp [Ne.symm h]
  induction m2 with
  | nil => rfl
  | cons e rest ih =>
    cases he : (e.1 == k) with
    | true =>
      have hek : e.1 = k := by simpa using he
      have he2 : ((e.1 == k2) : Bool) = false := by
        simp [hek, Ne.symm h]
      simp only [List.map_cons, if_pos he]
      rw [find?_cons_neg (fun e => e.1 == k2) (k, v) _ (by simpa using hkk2)]
      rw [find?_cons_neg (fun e => e.1 == k2) e rest he2]
      exact ih
    | false =>
      simp only [List.map_cons, if_neg (by simp [he] : ¬ ((e.1 == k) = true))]
      cases he2 : (e.1 == k2) with
      | true =>
        rw [find?_cons_pos (fun e => e.1 == k2) e _ he2]
        rw [find?_cons_pos (fun e => e.1 == k2) e rest he2]
      | false =>
        rw [find?_cons_neg (fun e => e.1 == k2) e _ he2]
        rw [find?_cons_neg (fun e => e.1 == k2) e rest he2]
        exact ih

theorem amGet_amSet_self [BEq κ] [LawfulBEq κ] (m : List (κ × ν)) (k : κ) (v : ν) :
    amGet (amSet m k v) k = some v := by
  by_cases h : (m.find? (fun e => e.1 == k)).isSome = true
  · simp [amSet, h, amGet, find?_map_update k v m h]
  · have hnone : m.find? (fun e => e.1 == k) = none := by
      cases hm : m.find? (fun e => e.1 == k) with
      | none => rfl
      | some x => rw [hm] at h; simp at h
    have happ := find?_append_none m [(k, v)] (fun e => e.1 == k) hnone
    rw [find?_cons_pos (fun e => e.1 == k) (k, v) [] (by simp)] at happ
    simp [amSet, h, amGet, happ]

theorem amGet_amSet_ne [BEq κ] [LawfulBEq κ] (m : List (κ × ν)) (k k2 : κ) (v : ν)
    (h : k2 ≠ k) : amGet (amSet m k v) k2 = amGet m k2 := by
  by_cases hs : (m.find? (fun e => e.1 == k)).isSome = true
  · simp [amSet, hs, amGet, find?_map_update_ne k k2 v h m]
  · cases hfind : m.find? (fun e => e.1 == k2) with
    | some x =>
      have := find?_append_some m [(k, v)] (fun e => e.1 == k2) x hfind
      simp [amSet, hs, amGet, this, hfind]
    | none =>
      have hkk2 : ((k == k2) : Bool) = false := by
        simp [Ne.symm h]
      have happ := find?_append_none m [(k, v)] (fun e => e.1 == k2) hfind
      rw [find?_cons_neg (fun e => e.1 == k2) (k, v) [] (by simpa using hkk2)] at happ
      simp [amSet, hs, amGet, happ, hfind]

theorem amGet_amDel_ne [BEq κ] [LawfulBEq κ] (m : List (κ × ν)) (k k2 : κ)
    (h : k2 ≠ k) : amGet (amDel m k) k2 = amGet m k2 := by
  have hfil : ((m.filter (fun e => !(e.1 == k))).find? (fun e => e.1 == k2))
      = m.find? (fun e => e.1 == k2) := by
    induction m with
    | nil => rfl
    | cons e rest ih =>
      cases he : (e.1 == k) with
      | true =>
        have hek : e.1 = k := by simpa using he
        have he2 : ((e.1 == k2) : Bool) = false := by
          simp [hek, Ne.symm h]
        simp only [List.filter_cons, he, Bool.not_true, if_neg]
        rw [find?_cons_neg (fun e => e.1 == k2) e rest he2]
        simpa using ih
      | false =>
        simp only [List.filter_cons, he, Bool.not_false, if_pos]
        cases he2 : (e.1 == k2) with
        | true =>
          rw [find?_cons_pos (fun e => e.1 == k2) e _ he2]
          rw [find?_cons_pos (fun e => e.1 == k2) e rest he2]
        | false =>
          rw [find?_cons_neg (fun e => e.1 == k2) e _ he2]
          rw [find?_cons_neg (fun e => e.1 == k2) e rest he2]
          exact ih
  simp [amDel, amGet, hfil]

theorem amGet_foldl_amSet_ne [BEq κ] [LawfulBEq κ] (entries : List (κ × ν)) :
    ∀ (rb : List (κ × ν)) (k : κ), (∀ e ∈ entries, e.1 ≠ k) →
      amGet (entries.foldl (fun acc e => amSet acc e.1 e.2) rb) k = amGet rb k := by
  induction entries with
  | nil => intro rb k _; rfl
  | cons e rest ih =>
    intro rb k hall
    simp only [List.foldl_cons]
    rw [ih _ k (fun x hx => hall x (List.mem_cons_of_mem e hx))]
    exact amGet_amSet_ne _ _ _ _ (Ne.symm (hall e (List.mem_cons_self e rest)))

/-! ## Request-body step lemmas and claim C6 -/

theorem stepTemperature_get_other (um : Option HFModelItem) (opts : ChatOptions)
    (rb : RBody) (k : String) (h : k ≠ "temperature") :
    amGet (stepTemperature um opts rb) k = amGet rb k := by
  cases um with
  | none => simp [stepTemperature, amGet_amSet_ne _ _ _ _ h]
  | some u =>
    by_cases ht : u.temperature = some none <;>
      simp [stepTemperature, ht, amGet_amSet_ne _ _ _ _ h, amGet_amDel_ne _ _ _ h]

theorem stepTopP_get_other (um : Option HFModelItem) (rb : RBody) (k : String)
    (h : k ≠ "top_p") : amGet (stepTopP um rb) k = amGet rb k := by
  rcases hm : um.bind (fun u => u.top_p) with _ | oq
  · simp [stepTopP, hm]
  · rcases oq with _ | q
    · simp [stepTopP, hm]
    · simp [stepTopP, hm, amGet_amSet_ne _ _ _ _ h]

theorem stepMaxTokens_get_other (um : Option HFModelItem) (rb : RBody) (k : String)
    (h : k ≠ "max_tokens") : amGet (stepMaxTokens um rb) k = amGet rb k := by
  rcases hm : um.bind (fun u => u.max_tokens) with _ | q <;>
    simp [stepMaxTokens, hm, amGet_amSet_ne _ _ _ _ h]

theorem stepMaxCompletionTokens_get_other (um : Option HFModelItem) (rb : RBody)
    (k : String) (h : k ≠ "max_completion_tokens") :
    amGet (stepMaxCompletionTokens um rb) k = amGet rb k := by
  rcases hm : um.bind (fun u => u.max_completion_tokens) with _ | q <;>
    simp [stepMaxCompletionTokens, hm, amGet_amSet_ne _ _ _ _ h]

theorem stepReasoningEffort_get_other (um : Option HFModelItem) (rb : RBody)
    (k : String) (h : k ≠ "reasoning_effort") :
    amGet (stepReasoningEffort um rb) k = amGet rb k := by
  rcases hm : um.bind (fun u => u.reasoning_effort) with _ | e <;>
    simp [stepReasoningEffort, hm, amGet_amSet_ne _ _ _ _ h]

theorem stepEnableThinking_get_other (um : Option HFModelItem) (rb : RBody)
    (k : String) (h1 : k ≠ "enable_thinking") (h2 : k ≠ "thinking_budget") :
    amGet (stepEnableThinking um rb) k = amGet rb k := by
  rcases hm : um.bind (fun u => u.enable_thinking) with _ | b
  · simp [stepEnableThinking, hm]
  · rcases hb : um.bind (fun u => u.thinking_budget) with _ | q <;>
      simp [stepEnableThinking, hm, hb, amGet_amSet_ne _ _ _ _ h1,
        amGet_amSet_ne _ _ _ _ h2]

theorem stepThinkingType_get_other (um : Option HFModelItem) (rb : RBody)
    (k : String) (h : k ≠ "thinking") : amGet (stepThinkingType um rb) k = amGet rb k := by
  rcases hm : um.bind (fun u => u.thinkingType) with _ | ty <;>
    simp [stepThinkingType, hm, amGet_amSet_ne _ _ _ _ h]

theorem stepReasoning_get_other (um : Option HFModelItem) (rb : RBody)
    (k : String) (h : k ≠ "reasoning") : amGet (stepReasoning um rb) k = amGet rb k := by
  rcases hm : um.bind (fun u => u.reasoning) with _ | rc
  · simp [stepReasoning, hm]
  · by_cases he : rc.enabled = some false <;>
      simp [stepReasoning, hm, he, amGet_amSet_ne _ _ _ _ h]

theorem stepStop_get_other (opts : ChatOptions) (rb : RBody) (k : String)
    (h : k ≠ "stop") : amGet (stepStop opts rb) k = amGet rb k := by
  rcases hmo : opts.modelOptions with _ | mo
  · simp [stepStop, hmo]
  · rcases hstop : mo.stop with _ | j
    · simp [stepStop, hmo, hstop]
    · by_cases hj : isStringOrArr j = true <;>
        simp [stepStop, hmo, hstop, hj, amGet_amSet_ne _ _ _ _ h]

theorem stepTools_get_other (tc : Option Json × Option Json) (rb : RBody) (k : String)
    (h1 : k ≠ "tools") (h2 : k ≠ "tool_choice") :
    amGet (stepTools tc rb) k = amGet rb k := by
  rcases tc with ⟨_ | t, _ | c⟩ <;>
    simp [stepTools, amGet_amSet_ne _ _ _ _ h1, amGet_amSet_ne _ _ _ _ h2]

theorem stepTopK_get_other (um : Option HFModelItem) (rb : RBody) (k : String)
    (h : k ≠ "top_k") : amGet (stepTopK um rb) k = amGet rb k := by
  rcases hm : um.bind (fun u => u.top_k) with _ | q <;>
    simp [stepTopK, hm, amGet_amSet_ne _ _ _ _ h]

theorem stepMinP_get_other (um : Option HFModelItem) (rb : RBody) (k : String)
    (h : k ≠ "min_p") : amGet (stepMinP um rb) k = amGet rb k := by
  rcases hm : um.bind (fun u => u.min_p) with _ | q <;>
    simp [stepMinP, hm, amGet_amSet_ne _ _ _ _ h]

theorem stepFrequencyPenalty_get_other (um : Option HFModelItem) (rb : RBody)
    (k : String) (h : k ≠ "frequency_penalty") :
    amGet (stepFrequencyPenalty um rb) k = amGet rb k := by
  rcases hm : um.bind (fun u => u.frequency_penalty) with _ | q <;>
    simp [stepFrequencyPenalty, hm, amGet_amSet_ne _ _ _ _ h]

theorem stepPresencePenalty_get_other (um : Option HFModelItem) (rb : RBody)
    (k : String) (h : k ≠ "presence_penalty") :
    amGet (stepPresencePenalty um rb) k = amGet rb k := by
  rcases hm : um.bind (fun u => u.presence_penalty) with _ | q <;>
    simp [stepPresencePenalty, hm, amGet_amSet_ne _ _ _ _ h]

theorem stepRepetitionPenalty_get_other (um : Option HFModelItem) (rb : RBody)
    (k : String) (h : k ≠ "repetition_penalty") :
    amGet (stepRepetitionPenalty um rb) k = amGet rb k := by
  rcases hm : um.bind (fun u => u.repetition_penalty) with _ | q <;>
    simp [stepRepetitionPenalty, hm, amGet_amSet_ne _ _ _ _ h]

theorem stepExtra_get_other (um : Option HFModelItem) (rb : RBody) (k : String)
    (hex : ∀ e ∈ (um.bind (fun u => u.extra)).getD [], e.1 ≠ k) :
    amGet (stepExtra um rb) k = amGet rb k := by
  rcases hm : um.bind (fun u => u.extra) with _ | entries
  · simp [stepExtra, hm]
  · rw [hm] at hex
    simp only [stepExtra, hm]
    exact amGet_foldl_amSet_ne entries rb k (by simpa using hex)

theorem stepTemperature_get_unset (u : HFModelItem) (opts : ChatOptions) (rb : RBody)
    (hum : u.temperature = none) :
    amGet (stepTemperature (some u) opts rb) "temperature"
      = some (Json.num ((opts.modelOptions.bind (fun mo => mo.temperature)).getD 0)) := by
  simp [stepTemperature, hum, amGet_amSet_self]

theorem stepTemperature_get_null (u : HFModelItem) (opts : ChatOptions) (rb : RBody)
    (hum : u.temperature = some none) :
    amGet (stepTemperature (some u) opts rb) "temperature" = none := by
  simp [stepTemperature, hum, amGet_amDel_self]

theorem stepTemperature_get_set (u : HFModelItem) (opts : ChatOptions) (rb : RBody)
    (q : Rat) (hum : u.temperature = some (some q)) :
    amGet (stepTemperature (some u) opts rb) "temperature" = some (Json.num q) := by
  simp [stepTemperature, hum, amGet_amSet_self]

theorem stepTopP_get_set (u : HFModelItem) (rb : RBody) (q : Rat)
    (hum : u.top_p = some (some q)) :
    amGet (stepTopP (some u) rb) "top_p" = some (Json.num q) := by
  simp [stepTopP, hum, amGet_amSet_self]

theorem stepTopP_get_notSet (u : HFModelItem) (rb : RBody)
    (hum : u.top_p = none ∨ u.top_p = some none) :
    stepTopP (some u) rb = rb := by
  rcases hum with hum | hum <;> simp [stepTopP, hum]

/-- Lookup after the whole pipeline equals lookup after the sampling steps, for
the temperature and top_p fields (no later step touches them as long as the
extra map avoids their keys). -/
theorem prepareRequestBody_get_sampling (rb : RBody) (um : HFModelItem)
    (opts : ChatOptions) (out : RBody) (k : String)
    (h : prepareRequestBody rb (some um) opts = Except.ok out)
    (hk : k = "temperature" ∨ k = "top_p")
    (hex : ∀ e ∈ um.extra.getD [], e.1 ≠ k) :
    amGet out k = amGet (stepTopP (some um) (stepTemperature (some um) opts rb)) k := by
  have hkd : k ≠ "max_tokens" ∧ k ≠ "max_completion_tokens" ∧ k ≠ "reasoning_effort"
      ∧ k ≠ "enable_thinking" ∧ k ≠ "thinking_budget" ∧ k ≠ "thinking"
      ∧ k ≠ "reasoning" ∧ k ≠ "stop" ∧ k ≠ "tools" ∧ k ≠ "tool_choice"
      ∧ k ≠ "top_k" ∧ k ≠ "min_p" ∧ k ≠ "frequency_penalty"
      ∧ k ≠ "presence_penalty" ∧ k ≠ "repetition_penalty" := by
    rcases hk with rfl | rfl <;> refine ⟨?_, ?_, ?_, ?_, ?_, ?_, ?_, ?_, ?_, ?_, ?_,
      ?_, ?_, ?_, ?_⟩ <;> decide
  obtain ⟨h1, h2, h3, h4, h5, h6, h7, h8, h9, h10, h11, h12, h13, h14, h15⟩ := hkd
  cases htc : convertToolsToOpenAI opts with
  | error e => rw [prepareRequestBody, htc] at h; cases h
  | ok tc =>
    rw [prepareRequestBody, htc] at h
    have hout := (Except.ok.inj h).symm
    rw [hout]
    rw [stepExtra_get_other _ _ _ (by simpa using hex)]
    rw [stepRepetitionPenalty_get_other _ _ _ h15]
    rw [stepPresencePenalty_get_other _ _ _ h14]
    rw [stepFrequencyPenalty_get_other _ _ _ h13]
    rw [stepMinP_get_other _ _ _ h12]
    rw [stepTopK_get_other _ _ _ h11]
    rw [stepTools_get_other _ _ _ h9 h10]
    rw [stepStop_get_other _ _ _ h8]
    rw [stepReasoning_get_other _ _ _ h7]
    rw [stepThinkingType_get_other _ _ _ h6]
    rw [stepEnableThinking_get_other _ _ _ h4 h5]
    rw [stepReasoningEffort_get_other _ _ _ h3]
    rw [stepMaxCompletionTokens_get_other _ _ _ h2]
    rw [stepMaxTokens_get_other _ _ _ h1]

/-- C6 counterexample: two model configurations identical except that one
leaves top_p unset and the other sets it to explicit null produce the very
same request body (in both the field is absent) — the unset case and the
explicit-null case are conflated for top_p. -/
theorem claim_C6_counterexample :
    prepareRequestBody rbInit (some umTopPUnset) optsNone
        = prepareRequestBody rbInit (some umTopPNull) optsNone
    ∧ topPOf (prepareRequestBody rbInit (some umTopPNull) optsNone) = some none
    ∧ umTopPUnset.top_p = none ∧ umTopPNull.top_p = some none :=
  ⟨rfl, rfl, rfl, rfl⟩

/-- C6 (amended): the chat-completions request builder preserves the three-way
distinction for temperature — unset sends the request default, explicit null
omits the field entirely, a set number is sent as given — while for top_p only
a set number is sent and both the unset and the explicit-null configuration
leave the field exactly as it was in the incoming body (omitted when absent
there): for top_p the unset and explicit-null cases are conflated. The extra
parameter map is assumed not to override the two fields. -/
theorem claim_C6 (rb : RBody) (um : HFModelItem) (opts : ChatOptions) (out : RBody)
    (h : prepareRequestBody rb (some um) opts = Except.ok out)
    (hex : ∀ e ∈ um.extra.getD [], e.1 ≠ "temperature" ∧ e.1 ≠ "top_p") :
    (um.temperature = none →
      amGet out "temperature"
        = some (Json.num ((opts.modelOptions.bind (fun mo => mo.temperature)).getD 0)))
    ∧ (um.temperature = some none → amGet out "temperature" = none)
    ∧ (∀ q, um.temperature = some (some q) →
        amGet out "temperature" = some (Json.num q))
    ∧ (∀ q, um.top_p = some (some q) → amGet out "top_p" = some (Json.num q))
    ∧ ((um.top_p = none ∨ um.top_p = some none) →
        amGet out "top_p" = amGet rb "top_p") := by
  have htemp := prepareRequestBody_get_sampling rb um opts out "temperature" h
    (Or.inl rfl) (fun e he => (hex e he).1)
  have htop := prepareRequestBody_get_sampling rb um opts out "top_p" h
    (Or.inr rfl) (fun e he => (hex e he).2)
  refine ⟨?_, ?_, ?_, ?_, ?_⟩
  · intro hum
    rw [htemp, stepTopP_get_other _ _ _ (by decide),
      stepTemperature_get_unset _ _ _ hum]
  · intro hum
    rw [htemp, stepTopP_get_other _ _ _ (by decide),
      stepTemperature_get_null _ _ _ hum]
  · intro q hum
    rw [htemp, stepTopP_get_other _ _ _ (by decide),
      stepTemperature_get_set _ _ _ q hum]
  · intro q hum
    rw [htop, stepTopP_get_set _ _ q hum]
  · intro hum
    rw [htop, stepTopP_get_notSet _ _ hum,
      stepTemperature_get_other _ _ _ _ (by decide)]

/-- C6 witness: the amended statement instantiated on a configuration that sets
temperature to 1 and top_p to 1 over the fixture body. -/
theorem claim_C6_witness :
    amGet ((prepareRequestBody rbInit (some umSampling) optsNone).toOption.getD [])
        "temperature" = some (Json.num 1)
    ∧ amGet ((prepareRequestBody rbInit (some umSampling) optsNone).toOption.getD [])
        "top_p" = some (Json.num 1) := by
  have h := claim_C6 rbInit umSampling optsNone
    ((prepareRequestBody rbInit (some umSampling) optsNone).toOption.getD []) rfl
    (by intro e he; cases he)
  exact ⟨h.2.2.1 1 rfl, h.2.2.2.1 1 rfl⟩

/-! ## C9: the one-space begin-tool-calls filler -/

/-- C9: over any stream, the one-space filler is emitted at most once (the
ghost counter of the final state, which counts exactly the filler text parts
emitted during the run, never exceeds one); after any prefix of the line loop,
a positive counter implies assistant text had been emitted, and an unset
per-stream begin-tool-calls flag implies the filler has not been emitted; a
stream none of whose payloads carries a tool-call fragment, and likewise a
stream none of whose payloads carries text content, ends with a counter of
zero. -/
theorem claim_C9 (ps : List Payload) :
    (runStream ps).1.fillerCount ≤ 1
      ∧ (∀ l r, ps = l ++ r
          → 1 ≤ (runPayloadsState initialOAIState l).fillerCount
          → (runPayloadsState initialOAIState l).hasEmittedAssistantText = true)
      ∧ (∀ l r, ps = l ++ r
          → (runPayloadsState initialOAIState l).emittedBeginToolCallsHint = false
          → (runPayloadsState initialOAIState l).fillerCount = 0)
      ∧ ((∀ p ∈ ps, payloadHasToolCalls p = false) → (runStream ps).1.fillerCount = 0)
      ∧ ((∀ p ∈ ps, payloadHasContent p = false) → (runStream ps).1.fillerCount = 0) := by
  have hrs := runStream_state ps
  have hend := reportEndThinking_obs (runPayloadsState initialOAIState ps)
  have hinv := runPayloadsState_inv ps initialOAIState (by decide) (fun _ => rfl) (by decide)
  refine ⟨?_, ?_, ?_, ?_, ?_⟩
  · rw [hrs, hend.1]
    exact hinv.1
  · intro l r hlr hcount
    have hl := runPayloadsState_inv l initialOAIState (by decide) (fun _ => rfl) (by decide)
    exact hl.2.2 hcount
  · intro l r hlr hflag
    have hl := runPayloadsState_inv l initialOAIState (by decide) (fun _ => rfl) (by decide)
    exact hl.2.1 hflag
  · intro h
    rw [hrs, hend.1]
    exact (runPayloadsState_noTools ps initialOAIState h).1
  · intro h
    rw [hrs, hend.1]
    exact (runPayloadsState_noContent ps initialOAIState h rfl).2

/-- C9 witness: the fixture stream with text before tool calls keeps the
counter at most one and its positive counter is backed by emitted assistant
text; the stream with no tool-call fragments ends at zero. -/
theorem claim_C9_witness :
    (runStream psWithTools).1.fillerCount ≤ 1
      ∧ (runPayloadsState initialOAIState psWithTools).hasEmittedAssistantText = true
      ∧ (runStream psNoTools).1.fillerCount = 0 := by
  refine ⟨(claim_C9 psWithTools).1, ?_, ?_⟩
  · exact (claim_C9 psWithTools).2.1 psWithTools [] (by simp) (by decide)
  · exact (claim_C9 psNoTools).2.2.2.1 (by decide)

end OaiAdapter
